import Mathlib

/-!
Verification of the `recursive-llm` TypeScript implementation
(`src/typescript/src`): the marker parser (`parser/final.ts`,
`parser/code.ts`), the sandbox executor (`sandbox/executor.ts`,
`sandbox/globals.ts`), the cost model (`types.ts`) and the `RLM`
completion loop (`sandbox/executor.ts`, class `RLM`).

The embedding works on `List Char`; the JavaScript regular expressions of
the parser are embedded as deterministic scanning functions.  For the
specific patterns in the source (character classes that exclude their own
closing delimiter, lazy repetitions closed by a literal, greedy
repetitions followed by a literal that the repeated class cannot match)
the backtracking JS semantics coincide with the deterministic left-most
scan implemented here; this is noted per function.

JavaScript `\s` and `trim` accept all Unicode whitespace; the embedding
models the ASCII whitespace characters (tab, LF, VT, FF, CR, space),
which is exact on ASCII inputs.  Floating-point dollar costs are modelled
as exact rationals.
-/

namespace RLMSpec

/-- Backslash character (code 92). -/
def bs : Char := Char.ofNat 92

/-- Double-quote character (code 34). -/
def dq : Char := Char.ofNat 34

/-- Single-quote character (code 39). -/
def sq : Char := Char.ofNat 39

/-- Backtick character (code 96). -/
def bt : Char := Char.ofNat 96

/-- Opening brace character (code 123). -/
def lbr : Char := Char.ofNat 123

/-- Closing brace character (code 125). -/
def rbr : Char := Char.ofNat 125

/-- ASCII whitespace, the ASCII part of JS `\s` / `String.prototype.trim`. -/
def isWs (c : Char) : Bool :=
  c = ' ' || c = Char.ofNat 9 || c = Char.ofNat 10 || c = Char.ofNat 11 ||
  c = Char.ofNat 12 || c = Char.ofNat 13

/-- JS word character `\w` = `[A-Za-z0-9_]` (used by `\b` boundaries). -/
def isWordChar (c : Char) : Bool :=
  (('a' ≤ c && c ≤ 'z') || ('A' ≤ c && c ≤ 'Z') || ('0' ≤ c && c ≤ '9') || c = '_')

/-- ASCII digit. -/
def isDigit (c : Char) : Bool := '0' ≤ c && c ≤ '9'

/-- Model of `String.prototype.trim` on char lists (ASCII whitespace). -/
def trimL (l : List Char) : List Char :=
  ((l.dropWhile isWs).reverse.dropWhile isWs).reverse

/-- Does `pre` occur as a prefix?  If so return the remainder. -/
def dropPre : List Char → List Char → Option (List Char)
  | [], l => some l
  | _ :: _, [] => none
  | p :: ps, c :: cs => if c = p then dropPre ps cs else none

/-- `l.containsSeq pat`: does `pat` occur as a contiguous substring?
Model of JS `String.prototype.includes`. -/
def containsSeq (pat : List Char) : List Char → Bool
  | [] => (dropPre pat []).isSome
  | c :: cs => (dropPre pat (c :: cs)).isSome || containsSeq pat cs

/-- Skip a (possibly empty) run of whitespace: the `\s*` of the patterns. -/
def skipWs (l : List Char) : List Char := l.dropWhile isWs

/-- `\s*\)` followed by anything: whitespace then a closing parenthesis.
After the `\)` the source patterns end, so the tail is unconstrained. -/
def wsThenParen (l : List Char) : Bool :=
  match skipWs l with
  | [] => false
  | c :: _ => c = ')'

/-! ## `unescapeString` (`parser/final.ts`, lines 195–203)

The source applies six global `String.prototype.replace` calls in order,
each replacing a two-character pattern (backslash + one character) by a
single character.  For a fixed two-character pattern, JS `replace` with a
`/g` regex substitutes the left-most, non-overlapping occurrences
scanning left to right, which is exactly `replaceEsc`. -/

/-- Replace every (left-most, non-overlapping) occurrence of the pair
`[a, b]` by the single character `r`. -/
def replaceEsc (a b r : Char) : List Char → List Char
  | [] => []
  | [c] => [c]
  | c1 :: c2 :: rest =>
    if c1 = a ∧ c2 = b then r :: replaceEsc a b r rest
    else c1 :: replaceEsc a b r (c2 :: rest)

/-- `unescapeString` on char lists: the six replacements of the source in
source order (`\n`, `\t`, `\r`, `\"`, `\'`, `\\`). -/
def unescapeL (l : List Char) : List Char :=
  replaceEsc bs bs bs
    (replaceEsc bs sq sq
      (replaceEsc bs dq dq
        (replaceEsc bs 'r' (Char.ofNat 13)
          (replaceEsc bs 't' (Char.ofNat 9)
            (replaceEsc bs 'n' (Char.ofNat 10) l)))))

/-- `unescapeString` (`parser/final.ts`). -/
def unescapeString (s : String) : String := String.mk (unescapeL s.toList)

/-! ## `extractFinal` (`parser/final.ts`, lines 16–42)

Six patterns tried in source order over the whole response; within one
pattern the left-most matching start position wins (JS
`String.prototype.match`).  Every pattern starts with `FINAL\s*\(\s*`. -/

/-- The characters of `FINAL`. -/
def finalTag : List Char := ['F', 'I', 'N', 'A', 'L']

/-- Anchored match of `FINAL\s*\(\s*` at the head of `l`; returns the
remainder after the matched prefix. -/
def afterFinalOpen (l : List Char) : Option (List Char) :=
  match dropPre finalTag l with
  | none => none
  | some r =>
    match skipWs r with
    | [] => none
    | c :: r2 => if c = '(' then some (skipWs r2) else none

/-- Left-most scan: try the anchored matcher `m` at every start position,
left to right.  Model of an unanchored JS regex search. -/
def scanFor (m : List Char → Option (List Char)) : List Char → Option (List Char)
  | [] => m []
  | c :: rest =>
    match m (c :: rest) with
    | some cap => some cap
    | none => scanFor m rest

/-- Lazy body of the triple-quoted patterns: `([\s\S]*?)qqq\s*\)` for a
quote `q`.  Returns the shortest capture whose closing `qqq` is followed
by `\s*\)`; this is the backtracking semantics of a lazy repetition. -/
def lazyClose3 (q : Char) : List Char → Option (List Char)
  | [] => none
  | c :: rest =>
    if c = q ∧ rest.take 2 = [q, q] ∧ wsThenParen (rest.drop 2) then some []
    else
      match lazyClose3 q rest with
      | some cap => some (c :: cap)
      | none => none

/-- Lazy body of the template-literal pattern: `([\s\S]*?)q\s*\)`. -/
def lazyClose1 (q : Char) : List Char → Option (List Char)
  | [] => none
  | c :: rest =>
    if c = q ∧ wsThenParen rest then some []
    else
      match lazyClose1 q rest with
      | some cap => some (c :: cap)
      | none => none

/-- Body of the single-line quoted patterns:
`([^q\\]*(?:\\.[^q\\]*)*)q\s*\)` for a quote `q`.  The character class
excludes the quote and the backslash, and `.` in `\\.` excludes line
terminators, so the scan is deterministic: a bare quote always ends the
capture, and a backslash must start a two-character escape pair. -/
def quoteBody (q : Char) : List Char → Option (List Char)
  | [] => none
  | c :: rest =>
    if c = q then (if wsThenParen rest then some [] else none)
    else if c = bs then
      match rest with
      | [] => none
      | d :: rest2 =>
        if d = Char.ofNat 10 ∨ d = Char.ofNat 13 then none
        else
          match quoteBody q rest2 with
          | some cap => some (c :: d :: cap)
          | none => none
    else
      match quoteBody q rest with
      | some cap => some (c :: cap)
      | none => none

/-- Anchored triple-quote pattern `FINAL\s*\(\s*qqq([\s\S]*?)qqq\s*\)`. -/
def tryTriple (q : Char) (l : List Char) : Option (List Char) :=
  match afterFinalOpen l with
  | none => none
  | some r => if r.take 3 = [q, q, q] then lazyClose3 q (r.drop 3) else none

/-- Anchored template-literal pattern `` FINAL\s*\(\s*`([\s\S]*?)`\s*\) ``. -/
def tryBacktick (l : List Char) : Option (List Char) :=
  match afterFinalOpen l with
  | none => none
  | some r =>
    match r with
    | [] => none
    | c :: r2 => if c = bt then lazyClose1 bt r2 else none

/-- Anchored single-line quoted pattern
`FINAL\s*\(\s*q([^q\\]*(?:\\.[^q\\]*)*)q\s*\)`. -/
def tryQuote (q : Char) (l : List Char) : Option (List Char) :=
  match afterFinalOpen l with
  | none => none
  | some r =>
    match r with
    | [] => none
    | c :: r2 => if c = q then quoteBody q r2 else none

/-- Anchored bare-numeric pattern `FINAL\s*\(\s*(-?[\d.]+)\s*\)`.  The
greedy run of `[\d.]` followed by `\s*\)` is deterministic: a shortened
run would leave a digit or dot where `\s*\)` must match. -/
def tryNumeric (l : List Char) : Option (List Char) :=
  match afterFinalOpen l with
  | none => none
  | some r =>
    let (neg, r1) :=
      match r with
      | c :: r2 => if c = '-' then (['-'], r2) else (([] : List Char), c :: r2)
      | [] => ([], [])
    let run := r1.takeWhile (fun c => isDigit c || c = '.')
    if run = [] then none
    else if wsThenParen (r1.drop run.length) then some (neg ++ run) else none

/-- First pattern of the list that produces a capture on `l`. -/
def firstCapture (l : List Char) : List (List Char → Option (List Char)) → Option (List Char)
  | [] => none
  | p :: ps =>
    match p l with
    | some cap => some cap
    | none => firstCapture l ps

/-- `extractFinal` on char lists: the six patterns in source order, each
searched left-most over the whole response; the capture is trimmed and
then unescaped (`match[1].trim()` before `unescapeString`). -/
def extractFinalL (l : List Char) : Option (List Char) :=
  (firstCapture l
    [scanFor (tryTriple dq), scanFor (tryTriple sq), scanFor tryBacktick,
     scanFor (tryQuote dq), scanFor (tryQuote sq), scanFor tryNumeric]).map
    fun cap => unescapeL (trimL cap)

/-- `extractFinal` (`parser/final.ts`). -/
def extractFinal (s : String) : Option String :=
  (extractFinalL s.toList).map fun l => String.mk l

/-! ## `extractFinalVar` (`parser/final.ts`, lines 53–86) -/

/-- Values stored in the sandbox environment.  `vJson` models a
structured (JS `object`) value by its `JSON.stringify(value, null, 2)`
rendering, which is the only observation the parser makes of it. -/
inductive SBValue where
  | vStr (s : String)
  | vNum (n : Int)
  | vBool (b : Bool)
  | vJson (rendered : String)
deriving DecidableEq, Repr

/-- The sandbox environment (`types.ts`, `SandboxEnvironment`): the
`context` and `query` strings plus any additional variable bindings.
The `recursiveLlm` closure and the `__output__` array are part of the
runner state and are not consulted by the parser, so they are omitted
from the lookup model. -/
structure SandboxEnvironment where
  context : String
  query : String
  vars : List (String × SBValue)
deriving DecidableEq, Repr

/-- `env[varName]`: the fixed keys `context`/`query` plus the extra
bindings. -/
def envLookup (env : SandboxEnvironment) (name : String) : Option SBValue :=
  if name = "context" then some (SBValue.vStr env.context)
  else if name = "query" then some (SBValue.vStr env.query)
  else (env.vars.find? fun p => p.1 = name).map fun p => p.2

/-- The string representation `extractFinalVar` produces: strings pass
through verbatim; `object`s are `JSON.stringify`ed; other primitives go
through `String(value)`. -/
def displayValue : SBValue → String
  | SBValue.vStr s => s
  | SBValue.vNum n => toString n
  | SBValue.vBool b => cond b "true" "false"
  | SBValue.vJson r => r

/-- The characters of `FINAL_VAR`. -/
def finalVarTag : List Char := "FINAL_VAR".toList

/-- Identifier start `[a-zA-Z_]`. -/
def isIdentStart (c : Char) : Bool :=
  (('a' ≤ c && c ≤ 'z') || ('A' ≤ c && c ≤ 'Z') || c = '_')

/-- Anchored match of `FINAL_VAR\s*\(\s*([a-zA-Z_][a-zA-Z0-9_]*)\s*\)`;
the greedy identifier run followed by `\s*\)` is deterministic. -/
def tryFinalVar (l : List Char) : Option (List Char) :=
  match dropPre finalVarTag l with
  | none => none
  | some r =>
    match skipWs r with
    | [] => none
    | c :: r2 =>
      if c = '(' then
        match skipWs r2 with
        | [] => none
        | d :: r3 =>
          if isIdentStart d then
            let run := r3.takeWhile isWordChar
            if wsThenParen (r3.drop run.length) then some (d :: run) else none
          else none
      else none

/-- `extractFinalVar` (`parser/final.ts`): match the marker, look the
identifier up in the environment, and render the value. -/
def extractFinalVar (response : String) (env : SandboxEnvironment) : Option String :=
  match scanFor tryFinalVar response.toList with
  | none => none
  | some nameL =>
    match envLookup env (String.mk nameL) with
    | none => none
    | some v => some (displayValue v)

/-! ## `extractFinalWithConfidence` (`parser/final.ts`, lines 94–139)

The strict branch runs `JSON.parse` on the captured object literal.  The
model implements `JSON.parse` for flat object literals with string keys
and string / number / boolean / null values — the shape the marker
grammar prescribes.  Captures outside this subset (nested containers,
`\u` escapes, exponent numbers) are treated as a parse failure, i.e.
they fall through to the field-scrape branch. -/

/-- JSON values of the flat subset. -/
inductive JVal where
  | jStr (s : String)
  | jNum (q : ℚ)
  | jBool (b : Bool)
  | jNull
deriving DecidableEq, Repr

/-- Parse a JSON string body after the opening quote; returns the
decoded characters and the remainder after the closing quote. -/
def jsonStr : List Char → Option (List Char × List Char)
  | [] => none
  | c :: rest =>
    if c = dq then some ([], rest)
    else if c = bs then
      match rest with
      | [] => none
      | d :: rest2 =>
        let dec : Option Char :=
          if d = dq then some dq
          else if d = bs then some bs
          else if d = '/' then some '/'
          else if d = 'n' then some (Char.ofNat 10)
          else if d = 't' then some (Char.ofNat 9)
          else if d = 'r' then some (Char.ofNat 13)
          else if d = 'b' then some (Char.ofNat 8)
          else if d = 'f' then some (Char.ofNat 12)
          else none
        match dec with
        | none => none
        | some ch =>
          match jsonStr rest2 with
          | some (s, r) => some (ch :: s, r)
          | none => none
    else
      match jsonStr rest with
      | some (s, r) => some (c :: s, r)
      | none => none

/-- Digits-to-Nat helper. -/
def digitsVal (l : List Char) : Nat :=
  l.foldl (fun a c => a * 10 + (c.toNat - 48)) 0

/-- Parse a JSON number `-?[0-9]+(\.[0-9]+)?`; returns the value and the
remainder. -/
def jsonNum (l : List Char) : Option (ℚ × List Char) :=
  let (sign, r1) :=
    match l with
    | c :: r => if c = '-' then ((-1 : ℚ), r) else ((1 : ℚ), c :: r)
    | [] => ((1 : ℚ), [])
  let intPart := r1.takeWhile isDigit
  if intPart = [] then none
  else
    let r2 := r1.drop intPart.length
    match r2 with
    | c :: r3 =>
      if c = '.' then
        let frac := r3.takeWhile isDigit
        if frac = [] then none
        else
          some (sign * ((digitsVal intPart : ℚ) +
            (digitsVal frac : ℚ) / ((10 : ℚ) ^ frac.length)), r3.drop frac.length)
      else some (sign * (digitsVal intPart : ℚ), c :: r3)
    | [] => some (sign * (digitsVal intPart : ℚ), [])

/-- Parse one JSON value of the flat subset. -/
def jsonVal (l : List Char) : Option (JVal × List Char) :=
  match l with
  | [] => none
  | c :: rest =>
    if c = dq then
      match jsonStr rest with
      | some (s, r) => some (JVal.jStr (String.mk s), r)
      | none => none
    else
      match dropPre "true".toList (c :: rest) with
      | some r => some (JVal.jBool true, r)
      | none =>
        match dropPre "false".toList (c :: rest) with
        | some r => some (JVal.jBool false, r)
        | none =>
          match dropPre "null".toList (c :: rest) with
          | some r => some (JVal.jNull, r)
          | none =>
            match jsonNum (c :: rest) with
            | some (q, r) => some (JVal.jNum q, r)
            | none => none

/-- Parse the members of a flat JSON object after the opening brace. -/
def jsonMembers (fuel : Nat) (l : List Char) : Option (List (String × JVal)) :=
  match fuel with
  | 0 => none
  | fuel + 1 =>
    match skipWs l with
    | [] => none
    | c :: rest =>
      if c = rbr then (if skipWs rest = [] then some [] else none)
      else if c = dq then
        match jsonStr rest with
        | none => none
        | some (key, r1) =>
          match skipWs r1 with
          | [] => none
          | c2 :: r2 =>
            if c2 = ':' then
              match jsonVal (skipWs r2) with
              | none => none
              | some (v, r3) =>
                match skipWs r3 with
                | [] => none
                | c3 :: r4 =>
                  if c3 = ',' then
                    match jsonMembers fuel r4 with
                    | some ms => some ((String.mk key, v) :: ms)
                    | none => none
                  else if c3 = rbr then
                    if skipWs r4 = [] then some [(String.mk key, v)] else none
                  else none
            else none
      else none

/-- `JSON.parse` model on the flat subset: the whole input must be one
object literal. -/
def jsonParseFlat (l : List Char) : Option (List (String × JVal)) :=
  match skipWs l with
  | [] => none
  | c :: rest => if c = lbr then jsonMembers (l.length + 1) rest else none

/-- The characters of `FINAL_WITH_CONFIDENCE`. -/
def finalConfTag : List Char := "FINAL_WITH_CONFIDENCE".toList

/-- Lazy capture `(\{[\s\S]*?\})\s*\)` after the opening brace: shortest
body whose closing brace is followed by `\s*\)`. -/
def lazyBrace : List Char → Option (List Char)
  | [] => none
  | c :: rest =>
    if c = rbr ∧ wsThenParen rest then some [c]
    else
      match lazyBrace rest with
      | some cap => some (c :: cap)
      | none => none

/-- Anchored match of `FINAL_WITH_CONFIDENCE\s*\(\s*(\{[\s\S]*?\})\s*\)`;
the capture includes both braces. -/
def tryFinalConf (l : List Char) : Option (List Char) :=
  match dropPre finalConfTag l with
  | none => none
  | some r =>
    match skipWs r with
    | [] => none
    | c :: r2 =>
      if c = '(' then
        match skipWs r2 with
        | [] => none
        | d :: r3 =>
          if d = lbr then
            match lazyBrace r3 with
            | some cap => some (d :: cap)
            | none => none
          else none
      else none

/-- Quote class `["'`]` of the field-scrape fallback. -/
def isQuoteClass (c : Char) : Bool := c = dq || c = sq || c = bt

/-- Fallback scrape for one field: `name\s*:\s*["'`]([^"'`]+)["'`]`. -/
def tryFieldStr (name : List Char) (l : List Char) : Option (List Char) :=
  match dropPre name l with
  | none => none
  | some r =>
    match skipWs r with
    | [] => none
    | c :: r2 =>
      if c = ':' then
        match skipWs r2 with
        | [] => none
        | q :: r3 =>
          if isQuoteClass q then
            let run := r3.takeWhile fun c => !isQuoteClass c
            if run = [] then none
            else
              match r3.drop run.length with
              | [] => none
              | q2 :: _ => if isQuoteClass q2 then some run else none
          else none
      else none

/-- Fallback scrape for the confidence field: `confidence\s*:\s*([\d.]+)`. -/
def tryFieldNum (l : List Char) : Option (List Char) :=
  match dropPre "confidence".toList l with
  | none => none
  | some r =>
    match skipWs r with
    | [] => none
    | c :: r2 =>
      if c = ':' then
        let r3 := skipWs r2
        let run := r3.takeWhile fun c => isDigit c || c = '.'
        if run = [] then none else some run
      else none

/-- `parseFloat` on a `[\d.]+` capture: digits with an optional single
fraction part; further dots are ignored (JS `parseFloat` stops at the
longest valid prefix).  A capture with no leading digits and no `.d`
form gives `NaN` in JS, modelled here as `none` (no claim observes a
`NaN` confidence). -/
def parseFloatQ (l : List Char) : Option ℚ :=
  let intPart := l.takeWhile isDigit
  let r1 := l.drop intPart.length
  match r1 with
  | c :: r2 =>
    if c = '.' then
      let frac := r2.takeWhile isDigit
      if intPart = [] ∧ frac = [] then none
      else some ((digitsVal intPart : ℚ) + (digitsVal frac : ℚ) / ((10 : ℚ) ^ frac.length))
    else if intPart = [] then none
    else some (digitsVal intPart : ℚ)
  | [] => if intPart = [] then none else some (digitsVal intPart : ℚ)

/-- `Math.max(0, Math.min(1, x))`. -/
def clamp01 (x : ℚ) : ℚ := max 0 (min 1 x)

/-- Result of `extractFinalWithConfidence`. -/
structure ConfidenceResult where
  answer : String
  confidence : ℚ
  reasoning : Option String
deriving DecidableEq, Repr

/-- `extractFinalWithConfidence` (`parser/final.ts`): strict parse of the
captured object, falling back to a field-by-field scrape when the strict
parse fails. -/
def extractFinalWithConfidence (response : String) : Option ConfidenceResult :=
  match scanFor tryFinalConf response.toList with
  | none => none
  | some cap =>
    match jsonParseFlat cap with
    | some fields =>
      match (fields.find? fun p => p.1 = "answer"),
            (fields.find? fun p => p.1 = "confidence") with
      | some (_, JVal.jStr a), some (_, JVal.jNum c) =>
        some { answer := a, confidence := clamp01 c,
               reasoning :=
                 match fields.find? fun p => p.1 = "reasoning" with
                 | some (_, JVal.jStr r) => some r
                 | _ => none }
      | _, _ => none
    | none =>
      match scanFor (tryFieldStr ("answer".toList)) cap,
            scanFor tryFieldNum cap with
      | some aCap, some cCap =>
        match parseFloatQ cCap with
        | some c =>
          some { answer := String.mk aCap, confidence := clamp01 c,
                 reasoning :=
                   (scanFor (tryFieldStr ("reasoning".toList)) cap).map
                     fun r => String.mk r }
        | none => none
      | _, _ => none

/-! ## `isFinal` and `parseResponse` (`parser/final.ts`, lines 147–190) -/

/-- `isFinal`: exact-substring checks, no whitespace tolerated before the
opening parenthesis. -/
def isFinal (response : String) : Bool :=
  containsSeq ("FINAL(".toList) response.toList ||
  containsSeq ("FINAL_VAR(".toList) response.toList ||
  containsSeq ("FINAL_WITH_CONFIDENCE(".toList) response.toList

/-- Result of `parseResponse`. -/
structure ParsedFinal where
  answer : String
  confidence : Option ℚ
  reasoning : Option String
deriving DecidableEq, Repr

/-- `parseResponse`: `FINAL_WITH_CONFIDENCE`, then `FINAL`, then
`FINAL_VAR`, in that order. -/
def parseResponse (response : String) (env : SandboxEnvironment) : Option ParsedFinal :=
  match extractFinalWithConfidence response with
  | some r => some { answer := r.answer, confidence := some r.confidence,
                     reasoning := r.reasoning }
  | none =>
    match extractFinal response with
    | some a => some { answer := a, confidence := none, reasoning := none }
    | none =>
      match extractFinalVar response env with
      | some a => some { answer := a, confidence := none, reasoning := none }
      | none => none

/-! ## `extractCodeBlocks` (`parser/code.ts`)

Pattern: `` ```(?:javascript|typescript|js|ts)?\s*\n?([\s\S]*?)``` `` with
the `g` flag, matches collected left to right; if none matches, the
response with all `FINAL…` markers erased is used as a raw snippet when
it "looks like code". -/

/-- Drop everything up to and including the first ` ``` ` fence; `none`
when there is no fence. -/
def findFence : List Char → Option (List Char)
  | [] => none
  | c :: rest =>
    if c = bt ∧ rest.take 2 = [bt, bt] then some (rest.drop 2)
    else findFence rest

/-- Lazy body up to the closing fence: returns the content and the
remainder after the closing ` ``` `. -/
def lazyToFence : List Char → Option (List Char × List Char)
  | [] => none
  | c :: rest =>
    if c = bt ∧ rest.take 2 = [bt, bt] then some ([], rest.drop 2)
    else
      match lazyToFence rest with
      | some (cap, r) => some (c :: cap, r)
      | none => none

/-- Optional language tag `(?:javascript|typescript|js|ts)?`, alternatives
tried in source order. -/
def dropLang (l : List Char) : List Char :=
  match dropPre ("javascript".toList) l with
  | some r => r
  | none =>
    match dropPre ("typescript".toList) l with
    | some r => r
    | none =>
      match dropPre ("js".toList) l with
      | some r => r
      | none =>
        match dropPre ("ts".toList) l with
        | some r => r
        | none => l

/-- Global collection of fenced blocks.  After the language tag the
pattern has `\s*\n?`; the greedy `\s*` already swallows any newline, so
this is a whitespace skip.  Trimmed-empty blocks are not collected (the
source checks `if (code)` after `.trim()`).  The fuel is the input
length, which bounds the number of fences. -/
def collectBlocks (fuel : Nat) (l : List Char) : List (List Char) :=
  match fuel with
  | 0 => []
  | fuel + 1 =>
    match findFence l with
    | none => []
    | some afterOpen =>
      match lazyToFence (skipWs (dropLang afterOpen)) with
      | none => []
      | some (content, rest) =>
        let t := trimL content
        if t = [] then collectBlocks fuel rest else t :: collectBlocks fuel rest

/-- Erase every occurrence of `tag\s*\([^)]*\)` (JS `replace` with `/g`:
left-most, non-overlapping, scanning resumes after the erased match).
Returns the remainder after a match at the head, if any. -/
def tryMarkerAt (tag : List Char) (l : List Char) : Option (List Char) :=
  match dropPre tag l with
  | none => none
  | some r =>
    match skipWs r with
    | [] => none
    | c :: r2 =>
      if c = '(' then
        let run := r2.takeWhile fun c => c ≠ ')'
        match r2.drop run.length with
        | [] => none
        | _ :: r3 => some r3
      else none

/-- Worker for the marker erasure; the fuel is the input length. -/
def stripMarkerGo (tag : List Char) : Nat → List Char → List Char
  | 0, l => l
  | _ + 1, [] => []
  | fuel + 1, c :: rest =>
    match tryMarkerAt tag (c :: rest) with
    | some r => stripMarkerGo tag fuel r
    | none => c :: stripMarkerGo tag fuel rest

/-- Erase all `tag\s*\([^)]*\)` matches. -/
def stripMarker (tag : List Char) (l : List Char) : List Char :=
  stripMarkerGo tag l.length l

/-- The three marker erasures of `extractCodeBlocks`, in source order. -/
def stripAllMarkers (l : List Char) : List Char :=
  stripMarker finalConfTag
    (stripMarker finalVarTag (stripMarker finalTag l))

/-- Word-boundary scan, worker: `atBoundary` is true when the previous
character was a non-word character (or we are at the start). -/
def scanWordThenGo (w : List Char) (p : List Char → Bool) : Bool → List Char → Bool
  | atBoundary, [] => atBoundary && w = [] && p []
  | atBoundary, c :: rest =>
    (atBoundary &&
      (match dropPre w (c :: rest) with
       | some r => p r
       | none => false)) ||
    scanWordThenGo w p (!isWordChar c) rest

/-- Is there a position with a `\b` word boundary before it at which the
literal word `w` matches, with the continuation test `p` holding on the
remainder? -/
def scanWordThen (w : List Char) (p : List Char → Bool) (l : List Char) : Bool :=
  scanWordThenGo w p true l

/-- `\w+` (one or more word chars) at some position, with `p` holding on
the remainder after the greedy word run. -/
def scanSeq (p : List Char → Bool) : List Char → Bool
  | [] => false
  | c :: rest =>
    (isWordChar c && p (rest.dropWhile isWordChar)) || scanSeq p rest

/-- `\s*` then the literal `c`. -/
def wsHead (r : List Char) (c : Char) : Bool :=
  match r.dropWhile isWs with
  | d :: _ => d = c
  | [] => false

/-- `\s+\w`: at least one whitespace character, then a word character. -/
def wsPlusWord (r : List Char) : Bool :=
  match r.dropWhile isWs with
  | c :: _ => (r.takeWhile isWs ≠ []) && isWordChar c
  | [] => false

/-- `/` followed by `/` or `*` somewhere (comment marker). -/
def hasCommentStart : List Char → Bool
  | [] => false
  | c :: rest =>
    (c = '/' && (match rest with
      | d :: _ => d = '/' || d = '*'
      | [] => false)) || hasCommentStart rest

/-- `isLikelyCode` (`parser/code.ts`): at least two of the eight
indicator patterns match. -/
def isLikelyCode (l : List Char) : Bool :=
  let declForm :=                     -- `\b(?:const|let|var)\s+\w+`
    scanWordThen ("const".toList) wsPlusWord l ||
    scanWordThen ("let".toList) wsPlusWord l ||
    scanWordThen ("var".toList) wsPlusWord l
  let callForm := scanSeq (fun r => wsHead r '(') l      -- `\w+\s*\(`
  let memberForm := scanSeq (fun r =>
    match r with
    | c :: d :: _ => c = '.' && isWordChar d
    | _ => false) l                                      -- `\w+\.\w+`
  let assignForm := scanSeq (fun r => wsHead r '=') l    -- `\w+\s*=`
  let bracketForm := l.any fun c => c = '[' || c = lbr   -- `[\[\{]`
  let cmpForm := l.any fun c => c = '=' || c = '!' || c = '<' || c = '>'
  let arithForm := l.any fun c => c = '+' || c = '-' || c = '*' || c = '/' || c = '%'
  let commentForm := hasCommentStart l                   -- `\/[/*]`
  let indicators := [declForm, callForm, memberForm, assignForm,
    bracketForm, cmpForm, arithForm, commentForm]
  2 ≤ (indicators.filter id).length

/-- `extractCodeBlocks` (`parser/code.ts`): fenced blocks if any,
otherwise the marker-stripped raw response when it looks like code. -/
def extractCodeBlocksL (l : List Char) : List (List Char) :=
  let blocks := collectBlocks (l.length + 1) l
  if blocks = [] then
    let rawCode := trimL (stripAllMarkers l)
    if rawCode ≠ [] ∧ isLikelyCode rawCode then [rawCode] else []
  else blocks

/-- `extractFirstCodeBlock` (`parser/code.ts`). -/
def extractFirstCodeBlock (s : String) : Option String :=
  (extractCodeBlocksL s.toList).head?.map fun l => String.mk l

/-! ## `containsForbiddenPattern` (`sandbox/globals.ts`, lines 561–610)

Each forbidden pattern is a word with a leading `\b`, optionally a
trailing `\b`, and optionally a `\s*` plus one required literal
character.  `containsForbiddenPattern` returns the matched text
(`match[0]`) of the first pattern (in list order) that matches. -/

/-- A forbidden pattern: `\b word (\b)? (\s* suffix)?`. -/
structure FPat where
  word : String
  endBoundary : Bool
  suffix : Option Char
deriving DecidableEq, Repr

/-- `FORBIDDEN_PATTERNS` (`sandbox/globals.ts`) in source order. -/
def FORBIDDEN_PATTERNS : List FPat :=
  [⟨"process", true, none⟩, ⟨"require", true, none⟩,
   ⟨"import", false, some '('⟩, ⟨"__dirname", true, none⟩,
   ⟨"__filename", true, none⟩, ⟨"global", true, none⟩,
   ⟨"globalThis", true, none⟩, ⟨"eval", true, none⟩,
   ⟨"Function", true, some '('⟩, ⟨"setTimeout", true, none⟩,
   ⟨"setInterval", true, none⟩, ⟨"setImmediate", true, none⟩,
   ⟨"__proto__", true, none⟩, ⟨"constructor", false, some '['⟩,
   ⟨"prototype", true, none⟩, ⟨"fs", true, none⟩,
   ⟨"path", true, none⟩, ⟨"child_process", true, none⟩,
   ⟨"fetch", true, none⟩, ⟨"XMLHttpRequest", true, none⟩,
   ⟨"WebSocket", true, none⟩, ⟨"Bun", true, none⟩,
   ⟨"Deno", true, none⟩, ⟨"Buffer", true, none⟩]

/-- Continuation after the word of an `FPat`: checks the optional `\b`
and the optional `\s*`-then-suffix, returning the extra matched text. -/
def fpatTail (p : FPat) (r : List Char) : Option (List Char) :=
  let bOk : Bool :=
    if p.endBoundary then
      match r with
      | [] => true
      | c :: _ => !isWordChar c
    else true
  if bOk then
    match p.suffix with
    | none => some []
    | some c =>
      let run := r.takeWhile isWs
      match r.drop run.length with
      | d :: _ => if d = c then some (run ++ [d]) else none
      | [] => none
  else none

/-- Left-most match of one forbidden pattern (with `\b` boundary
tracking); returns `match[0]`. -/
def fpatFind (p : FPat) : Bool → List Char → Option (List Char)
  | _, [] => none
  | atBoundary, c :: rest =>
    match
      (if atBoundary then
        match dropPre (p.word.toList) (c :: rest) with
        | some r =>
          match fpatTail p r with
          | some extra => some (p.word.toList ++ extra)
          | none => none
        | none => none
      else none) with
    | some m => some m
    | none => fpatFind p (!isWordChar c) rest

/-- `containsForbiddenPattern` (`sandbox/globals.ts`): first pattern in
list order with a match anywhere; returns its matched text. -/
def containsForbiddenPattern (code : String) : Option String :=
  (FORBIDDEN_PATTERNS.foldl
    (fun acc p =>
      match acc with
      | some m => some m
      | none => fpatFind p true code.toList)
    none).map fun l => String.mk l

/-! ## `calculateCost` and `MODEL_PRICING` (`types.ts`, lines 327–362)

Dollar rates per 1M tokens, modelled as exact rationals. -/

/-- `MODEL_PRICING`: `(inputPer1M, outputPer1M)`. -/
def MODEL_PRICING (model : String) : Option (ℚ × ℚ) :=
  if model = "claude-opus-4" then some (15, 75)
  else if model = "claude-sonnet-4" then some (3, 15)
  else if model = "claude-haiku" then some (1/4, 5/4)
  else if model = "gpt-4o" then some (5/2, 10)
  else if model = "gpt-4o-mini" then some (3/20, 3/5)
  else if model = "gpt-4-turbo" then some (10, 30)
  else if model = "o1" then some (15, 60)
  else if model = "o1-mini" then some (3, 12)
  else if model = "gemini-2.0-flash" then some (1/10, 2/5)
  else if model = "gemini-1.5-pro" then some (5/4, 5)
  else none

/-- `calculateCost` (`types.ts`): unknown models use the documented
default rates (2.5 in / 10.0 out per 1M tokens). -/
def calculateCost (model : String) (inputTokens outputTokens : Nat) : ℚ :=
  match MODEL_PRICING model with
  | none => ((inputTokens : ℚ) * (5/2) + (outputTokens : ℚ) * 10) / 1000000
  | some p =>
    ((inputTokens : ℚ) * p.1 + (outputTokens : ℚ) * p.2) / 1000000

/-! ## The `RLM` completion loop (`sandbox/executor.ts`, class `RLM`)

The loop is embedded as a fuelled recursive function.  The two external
effects are abstracted as deterministic oracles:

* the provider: `prov : Nat → ProvResp` indexed by a global call counter
  `clk` threaded through the whole run tree (the same provider instance
  is shared with child runs in the source);
* the dynamic part of a snippet execution (the `new Function` call):
  `dyn : String → DynBehavior` mapping the extracted snippet text to the
  ordered list of `recursiveLlm` calls it performs and the textual
  output it produces.  The static parts of `SandboxExecutor.execute`
  (code extraction, the emptiness early return, the policy check, output
  truncation) are embedded from the source.

Ghost fields (`own`, `ownCost`, `callDepths`, `spawnedDepths`, `merged`,
`sandboxed`) record observations used by theorems; they do not influence
control flow.  Wall-clock timing (`executionTimeMs`, execution timeouts)
is not modelled.  Events are notifications only and are not modelled. -/

/-- A provider response (`LLMProvider.complete`). -/
structure ProvResp where
  content : String
  inputTokens : Nat
  outputTokens : Nat
deriving DecidableEq, Repr

/-- Abstracted dynamic behaviour of one snippet execution: either it
performs a sequence of `recursiveLlm(subQuery, subContext)` calls and
produces joined printed output, or it raises a runtime error. -/
inductive DynBehavior where
  | runs (calls : List (String × String)) (output : String)
  | fails (msg : String)
deriving DecidableEq, Repr

/-- The resolved `RLM` configuration (`RLMConfig` after schema
defaults).  `costBudget` is `none` or positive for any instance the
constructor accepts (the zod schema rejects non-positive budgets). -/
structure Cfg where
  model : String
  recursiveModel : String
  maxDepth : Nat
  maxIterations : Nat
  maxOutputChars : Nat
  costBudget : Option ℚ
deriving DecidableEq, Repr

/-- The zod validation of `costBudget` (`z.number().positive()`),
checked when a child `RLM` is constructed. -/
def cfgBudgetValid (cfg : Cfg) : Bool :=
  match cfg.costBudget with
  | none => true
  | some b => 0 < b

/-- Message roles. -/
inductive Role where
  | system
  | user
  | assistant
deriving DecidableEq, Repr

/-- A conversation message. -/
structure Msg where
  role : Role
  content : String
deriving DecidableEq, Repr

/-- Snapshot of the statistics a parent reads off a finished child
(`subRLM.stats`). -/
structure StatsSnap where
  llmCalls : Nat
  inputTokens : Nat
  outputTokens : Nat
  replErrors : Nat
  cost : ℚ
deriving DecidableEq, Repr

/-- The per-run counters of an `RLM` instance, plus ghost observations.
`merged` collects the stats snapshots of successfully completed children
(in merge order); `own` counts this run's own provider dispatches;
`callDepths` records the depth at which every dispatch in this run's
subtree happened; `spawnedDepths` records the depth of every child this
run constructed; `sandboxed` records every response handed to the
sandbox. -/
structure RunAcc where
  llmCalls : Nat
  inputTokens : Nat
  outputTokens : Nat
  replErrors : Nat
  iterations : Nat
  cost : ℚ
  own : Nat
  ownCost : ℚ
  callDepths : List Nat
  spawnedDepths : List Nat
  merged : List StatsSnap
  sandboxed : List String
deriving DecidableEq, Repr

/-- All-zero counters of a fresh `RLM` instance. -/
def zeroAcc : RunAcc :=
  ⟨0, 0, 0, 0, 0, 0, 0, 0, [], [], [], []⟩

/-- Snapshot of the real counters. -/
def snapOf (a : RunAcc) : StatsSnap :=
  ⟨a.llmCalls, a.inputTokens, a.outputTokens, a.replErrors, a.cost⟩

/-- Stats merge on child success (`makeRecursiveFn`): cost, calls,
tokens and errors are added; nothing else of the parent's counters is
touched. -/
def mergeChild (a : RunAcc) (c : StatsSnap) : RunAcc :=
  { a with
    llmCalls := a.llmCalls + c.llmCalls,
    inputTokens := a.inputTokens + c.inputTokens,
    outputTokens := a.outputTokens + c.outputTokens,
    replErrors := a.replErrors + c.replErrors,
    cost := a.cost + c.cost,
    merged := a.merged ++ [c] }

/-- The typed run failures (`RLMError` subclasses). -/
inductive RErr where
  | depthErr (maxDepth : Nat)
  | itersErr (maxIterations : Nat) (lastMessage : Option String)
  | budgetErr (spent budget : ℚ)
  | zodErr
  | noGas
deriving DecidableEq, Repr

/-- The error message of an `RLMError` as observed by
`makeRecursiveFn`'s catch block.  Numeric dollar formatting
(`toFixed(4)`) is abstracted; no claim observes the budget message
text. -/
def rerrMessage : RErr → String
  | RErr.depthErr m => "Max recursion depth (" ++ toString m ++ ") exceeded"
  | RErr.itersErr m _ =>
    "Max iterations (" ++ toString m ++ ") exceeded without FINAL() marker"
  | RErr.budgetErr _ _ => "Cost budget exceeded"
  | RErr.zodErr => "Invalid configuration"
  | RErr.noGas => "out of fuel"

/-- A successful completion (`CompletionResult` without stats). -/
structure Done where
  answer : String
  confidence : Option ℚ
  reasoning : Option String
deriving DecidableEq, Repr

/-- Outcome of one run (`Except` with decidable equality). -/
inductive Outcome where
  | err (e : RErr)
  | ok (d : Done)
deriving DecidableEq, Repr

/-- Result of one run: outcome, final provider clock, final counters. -/
structure RunRes where
  out : Outcome
  clk : Nat
  acc : RunAcc
deriving DecidableEq, Repr

/-- `ExecutionStats` (`types.ts`), as produced by the `stats` getter and
by `complete`: `maxDepthReached` is always the instance's own
`currentDepth`.  `executionTimeMs` (wall clock) is not modelled. -/
structure ExecutionStats where
  llmCalls : Nat
  iterations : Nat
  maxDepthReached : Nat
  totalTokens : Nat
  estimatedCost : ℚ
  replErrors : Nat
deriving DecidableEq, Repr

/-- The `stats` getter of an `RLM` at depth `depth` with counters `a`. -/
def accToStats (depth : Nat) (a : RunAcc) : ExecutionStats :=
  ⟨a.llmCalls, a.iterations, depth, a.inputTokens + a.outputTokens,
   a.cost, a.replErrors⟩

/-- `buildUserPrompt` (`prompts.ts`). -/
def buildUserPrompt (query : String) : String :=
  "Question: " ++ query ++
  "\n\nWrite code to explore the context and find the answer. Remember to use FINAL() when done."

/-- `buildErrorPrompt` (`prompts.ts`). -/
def buildErrorPrompt (error : String) : String :=
  "REPL Error: " ++ error ++
  "\n\nPlease fix the error and try again. Common issues:\n- Undefined variable: Check spelling, ensure variable was defined\n- Syntax error: Check brackets, quotes, semicolons\n- Type error: Ensure correct types for operations"

/-- `buildSystemPrompt` (`prompts.ts`), abbreviated: the literal prompt
text is long and is not observed by any claim; the model keeps its
arguments so that the initial message pair is depth- and
context-dependent as in the source. -/
def buildSystemPrompt (contextSize depth maxDepth : Nat) : String :=
  "You are a Recursive Language Model (RLM). Context size: " ++
  toString contextSize ++ ". Depth: " ++ toString depth ++ "/" ++
  toString maxDepth ++ "."

/-- The explanatory string `makeRecursiveFn` returns when recursion is
depth-limited. -/
def depthLimitMsg (maxDepth : Nat) : String :=
  "Max recursion depth (" ++ toString maxDepth ++ ") reached. Cannot process sub-query."

/-- The forbidden-pattern rejection message (`SandboxExecutor.execute`). -/
def forbiddenMsg (tok : String) : String :=
  "Forbidden pattern detected: " ++ dq.toString ++ tok ++ dq.toString ++
  ". File system, network, and process access are not allowed."

/-- Output truncation (`SandboxExecutor.execute`): outputs longer than
`maxOutputChars` are cut and a truncation marker is appended. -/
def truncateOutput (maxOutputChars : Nat) (out : String) : String :=
  if maxOutputChars < out.length then
    String.mk (out.toList.take maxOutputChars) ++
    "\n\n[Output truncated: " ++ toString out.length ++
    " chars total, showing first " ++ toString maxOutputChars ++ "]"
  else out

/-- The child configuration `makeRecursiveFn` passes to `new RLM`: the
recursive model becomes the child's primary model, limits are inherited,
and the budget ceiling is the parent's ceiling minus the parent's spend
at the moment of delegation (absent when the parent has none). -/
def childCfg (cfg : Cfg) (spentSoFar : ℚ) : Cfg :=
  { cfg with
    model := cfg.recursiveModel,
    costBudget := cfg.costBudget.map fun b => b - spentSoFar }

/-- The type of a run function: configuration, depth, query, context,
provider clock in; result out. -/
def RunFn : Type := Cfg → Nat → String → String → Nat → RunRes

/-- Outcome of one `recursiveLlm` invocation inside a snippet: either an
answer string handed back to the snippet, or an abort (an exception that
escapes `recursiveLlm` and fails the whole snippet execution — in the
source this happens when the child constructor's zod validation throws,
which `makeRecursiveFn`'s try/catch does not cover). -/
inductive CallOut where
  | ok (answer : String) (clk : Nat) (acc : RunAcc)
  | abort (msg : String) (clk : Nat) (acc : RunAcc)
deriving DecidableEq, Repr

/-- `makeRecursiveFn` (`sandbox/executor.ts`, lines 628–684): refuse at
the depth limit with an explanatory string (no model call, no state
change); otherwise construct the child (zod-validating its budget), run
it one depth deeper, and on success merge its stats by addition.  On
child failure the error is converted to a string and nothing is
merged. -/
def recCallStep (run : RunFn) (cfg : Cfg) (depth : Nat) (q c : String)
    (clk : Nat) (acc : RunAcc) : CallOut :=
  if cfg.maxDepth ≤ depth + 1 then CallOut.ok (depthLimitMsg cfg.maxDepth) clk acc
  else
    let ccfg := childCfg cfg acc.cost
    if cfgBudgetValid ccfg then
      let res := run ccfg (depth + 1) q c clk
      let acc1 := { acc with
        spawnedDepths := acc.spawnedDepths ++ [depth + 1],
        callDepths := acc.callDepths ++ res.acc.callDepths }
      match res.out with
      | Outcome.ok d => CallOut.ok d.answer res.clk (mergeChild acc1 (snapOf res.acc))
      | Outcome.err e =>
        CallOut.ok ("Error in recursive call: " ++ rerrMessage e) res.clk acc1
    else CallOut.abort "Invalid configuration" clk acc

/-- Outcome of the sequence of recursive calls a snippet performs. -/
inductive CallsOut where
  | done (clk : Nat) (acc : RunAcc)
  | abort (msg : String) (clk : Nat) (acc : RunAcc)
deriving DecidableEq, Repr

/-- Run the snippet's recursive calls in order. -/
def runCalls (run : RunFn) (cfg : Cfg) (depth : Nat) :
    List (String × String) → Nat → RunAcc → CallsOut
  | [], clk, acc => CallsOut.done clk acc
  | (q, c) :: rest, clk, acc =>
    match recCallStep run cfg depth q c clk acc with
    | CallOut.ok _ clk1 acc1 => runCalls run cfg depth rest clk1 acc1
    | CallOut.abort m clk1 acc1 => CallsOut.abort m clk1 acc1

/-- Outcome of one `SandboxExecutor.execute` call. -/
inductive SandboxOut where
  | ok (output : String) (env : SandboxEnvironment) (clk : Nat) (acc : RunAcc)
  | err (msg : String) (clk : Nat) (acc : RunAcc)
deriving DecidableEq, Repr

/-- The snippet text `SandboxExecutor.execute` will run: the first
fenced code block, else the trimmed raw response
(`extractFirstCodeBlock(response) ?? response.trim()`). -/
def codeOf (response : String) : String :=
  (extractFirstCodeBlock response).getD (String.mk (trimL response.toList))

/-- `SandboxExecutor.execute` (`sandbox/executor.ts`, lines 53–175),
parametrised by the static policy checker: extract the snippet
(`codeOf`), return immediately on an empty
snippet (before the policy check, environment untouched), reject on a
forbidden pattern, then run the dynamic part.  `execute` never adds
variable bindings to the environment (the source comment at lines
140–142: variables cannot be extracted from the executed code), so the
environment is returned exactly as received. -/
def sandboxExecP (checker : String → Option String) (run : RunFn)
    (dyn : String → DynBehavior) (cfg : Cfg) (depth : Nat)
    (response : String) (env : SandboxEnvironment) (clk : Nat) (acc : RunAcc) :
    SandboxOut :=
  let code := codeOf response
  if code = "" then SandboxOut.ok "" env clk acc
  else
    match checker code with
    | some tok => SandboxOut.err (forbiddenMsg tok) clk acc
    | none =>
      match dyn code with
      | DynBehavior.fails m => SandboxOut.err ("Execution error: " ++ m) clk acc
      | DynBehavior.runs calls out =>
        match runCalls run cfg depth calls clk acc with
        | CallsOut.abort m clk1 acc1 =>
          SandboxOut.err ("Execution error: " ++ m) clk1 acc1
        | CallsOut.done clk1 acc1 =>
          SandboxOut.ok (truncateOutput cfg.maxOutputChars out) env clk1 acc1

/-- The model selected for a dispatch: root model at depth 0, recursive
model below. -/
def dispatchModel (cfg : Cfg) (depth : Nat) : String :=
  if depth = 0 then cfg.model else cfg.recursiveModel

/-- `this._iterations = iteration` at the start of loop pass with `r`
iterations remaining after this one. -/
def setIter (cfg : Cfg) (r : Nat) (acc : RunAcc) : RunAcc :=
  { acc with iterations := cfg.maxIterations - r }

/-- Counter updates of one provider dispatch (`callLLM`): one more call,
tokens and per-call cost accumulated. -/
def dispatchAcc (cfg : Cfg) (depth : Nat) (resp : ProvResp) (acc : RunAcc) : RunAcc :=
  { acc with
    llmCalls := acc.llmCalls + 1,
    own := acc.own + 1,
    callDepths := acc.callDepths ++ [depth],
    inputTokens := acc.inputTokens + resp.inputTokens,
    outputTokens := acc.outputTokens + resp.outputTokens,
    cost := acc.cost +
      calculateCost (dispatchModel cfg depth) resp.inputTokens resp.outputTokens,
    ownCost := acc.ownCost +
      calculateCost (dispatchModel cfg depth) resp.inputTokens resp.outputTokens }

/-- Ghost record of a response being handed to the sandbox. -/
def markSandboxed (content : String) (acc : RunAcc) : RunAcc :=
  { acc with sandboxed := acc.sandboxed ++ [content] }

/-- `this._replErrors++` on a recoverable sandbox fault. -/
def bumpRepl (acc : RunAcc) : RunAcc :=
  { acc with replErrors := acc.replErrors + 1 }

/-- The pre-flight budget check of one iteration: the ceiling when it is
configured and already met or exceeded. -/
def budgetHit (cfg : Cfg) (acc : RunAcc) : Option ℚ :=
  match cfg.costBudget with
  | some b => if b ≤ acc.cost then some b else none
  | none => none

/-- The terminal-marker gate of one iteration: `parseResponse` is only
consulted when `isFinal` holds. -/
def terminalGate (content : String) (env : SandboxEnvironment) : Option ParsedFinal :=
  if isFinal content then parseResponse content env else none

/-- The completion loop of `RLM.complete` (`sandbox/executor.ts`, lines
474–592), with `remaining` iterations left.  Each iteration: pre-flight
budget check, dispatch (model selected by depth), terminal-marker check,
sandbox execution with recoverable-fault absorption, message append.
When the iterations are exhausted a `MaxIterationsError` carrying the
last message is raised. -/
def iterLoop (run : RunFn) (prov : Nat → ProvResp) (dyn : String → DynBehavior)
    (cfg : Cfg) (depth : Nat) :
    Nat → List Msg → SandboxEnvironment → Nat → RunAcc → RunRes
  | 0, msgs, _, clk, acc =>
    ⟨Outcome.err (RErr.itersErr cfg.maxIterations (msgs.getLast?.map fun m => m.content)),
     clk, acc⟩
  | r + 1, msgs, env, clk, acc =>
    let acc0 := setIter cfg r acc
    match budgetHit cfg acc0 with
    | some b => ⟨Outcome.err (RErr.budgetErr acc0.cost b), clk, acc0⟩
    | none =>
      let resp := prov clk
      let acc1 := dispatchAcc cfg depth resp acc0
      match terminalGate resp.content env with
      | some pr => ⟨Outcome.ok ⟨pr.answer, pr.confidence, pr.reasoning⟩, clk + 1, acc1⟩
      | none =>
        let acc2 := markSandboxed resp.content acc1
        match sandboxExecP containsForbiddenPattern run dyn cfg depth
            resp.content env (clk + 1) acc2 with
        | SandboxOut.ok out env1 clk2 acc3 =>
          let execResult := if out = "" then "(no output)" else out
          iterLoop run prov dyn cfg depth r
            (msgs ++ [⟨Role.assistant, resp.content⟩, ⟨Role.user, execResult⟩])
            env1 clk2 acc3
        | SandboxOut.err m clk2 acc3 =>
          iterLoop run prov dyn cfg depth r
            (msgs ++ [⟨Role.assistant, resp.content⟩, ⟨Role.user, buildErrorPrompt m⟩])
            env clk2 (bumpRepl acc3)

/-- `RLM.complete` (`sandbox/executor.ts`, lines 433–599) as a fuelled
runner.  The fuel only bounds the recursion of child construction; a run
at depth `d` with fuel `> cfg.maxDepth - d` never exhausts it, because
children are only spawned when `depth + 1 < maxDepth`.  A run
instantiated at or past `maxDepth` fails with `MaxDepthError` before
anything else happens. -/
def runRLM (prov : Nat → ProvResp) (dyn : String → DynBehavior) :
    Nat → Cfg → Nat → String → String → Nat → RunRes
  | 0, _, _, _, _, clk => ⟨Outcome.err RErr.noGas, clk, zeroAcc⟩
  | gas + 1, cfg, depth, query, ctx, clk =>
    if cfg.maxDepth ≤ depth then ⟨Outcome.err (RErr.depthErr cfg.maxDepth), clk, zeroAcc⟩
    else
      iterLoop (runRLM prov dyn gas) prov dyn cfg depth cfg.maxIterations
        [⟨Role.system, buildSystemPrompt ctx.length depth cfg.maxDepth⟩,
         ⟨Role.user, buildUserPrompt query⟩]
        ⟨ctx, query, []⟩ clk zeroAcc

/-- A root run: `new RLM(config)` defaults the depth to 0. -/
def runRoot (prov : Nat → ProvResp) (dyn : String → DynBehavior)
    (gas : Nat) (cfg : Cfg) (query ctx : String) : RunRes :=
  runRLM prov dyn gas cfg 0 query ctx 0

/-! ## Whitespace and trim lemmas -/

theorem mem_dropWhile_of_mem {p : Char → Bool} {c : Char} :
    ∀ {l : List Char}, c ∈ l → p c = false → c ∈ l.dropWhile p := by
  intro l
  induction l with
  | nil => intro h; cases h
  | cons a t ih =>
    intro hm hc
    by_cases ha : p a = true
    · rw [List.dropWhile_cons_of_pos ha]
      rcases List.mem_cons.mp hm with h | h
      · subst h; rw [hc] at ha; cases ha
      · exact ih h hc
    · rw [List.dropWhile_cons_of_neg ha]
      exact hm

theorem mem_of_trimL_ne {c : Char} {l : List Char}
    (hm : c ∈ l) (hc : isWs c = false) : c ∈ trimL l := by
  unfold trimL
  rw [List.mem_reverse]
  refine mem_dropWhile_of_mem ?_ hc
  rw [List.mem_reverse]
  exact mem_dropWhile_of_mem hm hc

/-- If the trimmed text is empty, every character is whitespace. -/
theorem allWs_of_trimL_eq_nil {l : List Char} (h : trimL l = []) :
    ∀ c ∈ l, isWs c = true := by
  intro c hc
  by_contra hne
  have : c ∈ trimL l :=
    mem_of_trimL_ne hc (by simpa using Bool.eq_false_iff.mpr hne)
  rw [h] at this
  cases this

theorem dropWhile_eq_nil_of_all {p : Char → Bool} :
    ∀ {l : List Char}, (∀ c ∈ l, p c = true) → l.dropWhile p = []
  | [], _ => rfl
  | a :: t, h => by
    rw [List.dropWhile_cons_of_pos (h a (List.mem_cons_self a t))]
    exact dropWhile_eq_nil_of_all fun c hc => h c (List.mem_cons_of_mem a hc)

theorem trimL_eq_nil_of_allWs {l : List Char} (h : ∀ c ∈ l, isWs c = true) :
    trimL l = [] := by
  unfold trimL
  rw [dropWhile_eq_nil_of_all h]
  rfl

/-! ## The empty-snippet early return (claim C9 infrastructure) -/

theorem findFence_eq_none {l : List Char} (h : bt ∉ l) : findFence l = none := by
  induction l with
  | nil => rfl
  | cons c rest ih =>
    unfold findFence
    have hc : ¬ c = bt := fun he => h (he ▸ List.mem_cons_self c rest)
    rw [if_neg (by simp [hc])]
    exact ih fun hm => h (List.mem_cons_of_mem c hm)

theorem collectBlocks_eq_nil {fuel : Nat} {l : List Char}
    (h : findFence l = none) : collectBlocks fuel l = [] := by
  cases fuel with
  | zero => rfl
  | succ f => unfold collectBlocks; rw [h]

theorem tryMarkerAt_eq_none {tag l : List Char} {t : List Char}
    (htag : tag = 'F' :: t) (hl : 'F' ∉ l.head?.toList) :
    tryMarkerAt tag l = none := by
  cases l with
  | nil => subst htag; rfl
  | cons c rest =>
    subst htag
    unfold tryMarkerAt
    have hc : ¬ c = 'F' := by
      intro he
      exact hl (by simp [he])
    simp [dropPre, hc]

theorem stripMarkerGo_eq_self {tag : List Char} {t : List Char}
    (htag : tag = 'F' :: t) :
    ∀ (fuel : Nat) (l : List Char), 'F' ∉ l → stripMarkerGo tag fuel l = l := by
  intro fuel
  induction fuel with
  | zero => intro l _; cases l <;> rfl
  | succ f ih =>
    intro l hl
    cases l with
    | nil => rfl
    | cons c rest =>
      unfold stripMarkerGo
      rw [tryMarkerAt_eq_none htag
        (by simp; intro he; exact hl (he ▸ List.mem_cons_self c rest))]
      rw [ih rest fun hm => hl (List.mem_cons_of_mem c hm)]

theorem stripMarker_eq_self {tag : List Char} {t l : List Char}
    (htag : tag = 'F' :: t) (hl : 'F' ∉ l) : stripMarker tag l = l :=
  stripMarkerGo_eq_self htag l.length l hl

theorem stripAllMarkers_eq_self {l : List Char} (hl : 'F' ∉ l) :
    stripAllMarkers l = l := by
  unfold stripAllMarkers
  rw [stripMarker_eq_self (show finalTag = 'F' :: ("INAL".toList) by decide) hl,
    stripMarker_eq_self (show finalVarTag = 'F' :: ("INAL_VAR".toList) by decide) hl,
    stripMarker_eq_self
      (show finalConfTag = 'F' :: ("INAL_WITH_CONFIDENCE".toList) by decide) hl]

/-- On an all-whitespace response there is no fenced block and the
marker-stripped raw text trims to empty, so no snippet is extracted. -/
theorem extractCodeBlocksL_eq_nil_of_allWs {l : List Char}
    (h : ∀ c ∈ l, isWs c = true) : extractCodeBlocksL l = [] := by
  have hbt : bt ∉ l := by
    intro hm
    have := h bt hm
    simp [isWs, bt] at this
  have hF : 'F' ∉ l := by
    intro hm
    have := h 'F' hm
    simp [isWs] at this
  unfold extractCodeBlocksL
  rw [collectBlocks_eq_nil (findFence_eq_none hbt)]
  rw [if_pos rfl]
  rw [stripAllMarkers_eq_self hF, trimL_eq_nil_of_allWs h]
  simp

/-! ## One-step lemmas for the completion loop -/

theorem iterLoop_budget (run : RunFn) (prov : Nat → ProvResp)
    (dyn : String → DynBehavior) (cfg : Cfg) (depth r : Nat) (msgs : List Msg)
    (env : SandboxEnvironment) (clk : Nat) (acc : RunAcc) (b : ℚ)
    (hb : budgetHit cfg (setIter cfg r acc) = some b) :
    iterLoop run prov dyn cfg depth (r + 1) msgs env clk acc =
      ⟨Outcome.err (RErr.budgetErr (setIter cfg r acc).cost b), clk,
       setIter cfg r acc⟩ := by
  simp only [iterLoop]
  rw [hb]

theorem iterLoop_terminal (run : RunFn) (prov : Nat → ProvResp)
    (dyn : String → DynBehavior) (cfg : Cfg) (depth r : Nat) (msgs : List Msg)
    (env : SandboxEnvironment) (clk : Nat) (acc : RunAcc) (pr : ParsedFinal)
    (hb : budgetHit cfg (setIter cfg r acc) = none)
    (ht : terminalGate (prov clk).content env = some pr) :
    iterLoop run prov dyn cfg depth (r + 1) msgs env clk acc =
      ⟨Outcome.ok ⟨pr.answer, pr.confidence, pr.reasoning⟩, clk + 1,
       dispatchAcc cfg depth (prov clk) (setIter cfg r acc)⟩ := by
  simp only [iterLoop]
  rw [hb, ht]

theorem iterLoop_step (run : RunFn) (prov : Nat → ProvResp)
    (dyn : String → DynBehavior) (cfg : Cfg) (depth r : Nat) (msgs : List Msg)
    (env : SandboxEnvironment) (clk : Nat) (acc : RunAcc)
    (hb : budgetHit cfg (setIter cfg r acc) = none)
    (ht : terminalGate (prov clk).content env = none) :
    iterLoop run prov dyn cfg depth (r + 1) msgs env clk acc =
      (match sandboxExecP containsForbiddenPattern run dyn cfg depth
          (prov clk).content env (clk + 1)
          (markSandboxed (prov clk).content
            (dispatchAcc cfg depth (prov clk) (setIter cfg r acc))) with
       | SandboxOut.ok out env1 clk2 acc3 =>
         iterLoop run prov dyn cfg depth r
           (msgs ++ [⟨Role.assistant, (prov clk).content⟩,
                     ⟨Role.user, if out = "" then "(no output)" else out⟩])
           env1 clk2 acc3
       | SandboxOut.err m clk2 acc3 =>
         iterLoop run prov dyn cfg depth r
           (msgs ++ [⟨Role.assistant, (prov clk).content⟩,
                     ⟨Role.user, buildErrorPrompt m⟩])
           env clk2 (bumpRepl acc3)) := by
  simp only [iterLoop]
  rw [hb, ht]

/-- A snippet behaviour that performs no recursive calls. -/
def noRecCalls : DynBehavior → Prop
  | DynBehavior.runs calls _ => calls = []
  | DynBehavior.fails _ => True

/-- Under `noRecCalls` a sandbox execution changes neither the clock nor
the counters, and can only succeed with the environment unchanged or
fail. -/
theorem sandboxExecP_noCalls (checker : String → Option String) (run : RunFn)
    (dyn : String → DynBehavior) (cfg : Cfg) (depth : Nat) (response : String)
    (env : SandboxEnvironment) (clk : Nat) (acc : RunAcc)
    (h : noRecCalls (dyn (codeOf response))) :
    (∃ out, sandboxExecP checker run dyn cfg depth response env clk acc =
      SandboxOut.ok out env clk acc) ∨
    (∃ m, sandboxExecP checker run dyn cfg depth response env clk acc =
      SandboxOut.err m clk acc) := by
  unfold sandboxExecP
  by_cases hc : codeOf response = ""
  · exact Or.inl ⟨"", by rw [if_pos hc]⟩
  · rw [if_neg hc]
    cases hch : checker (codeOf response) with
    | some tok => exact Or.inr ⟨forbiddenMsg tok, rfl⟩
    | none =>
      cases hd : dyn (codeOf response) with
      | fails m => exact Or.inr ⟨"Execution error: " ++ m, rfl⟩
      | runs calls out =>
        have : calls = [] := by
          have := h
          rw [hd] at this
          exact this
        subst this
        exact Or.inl ⟨truncateOutput cfg.maxOutputChars out, rfl⟩

/-! ## Accumulator projections and invariant lemmas -/

/-- The counters carried by a `CallOut`. -/
def accOfCall : CallOut → RunAcc
  | CallOut.ok _ _ a => a
  | CallOut.abort _ _ a => a

/-- The counters carried by a `CallsOut`. -/
def accOfCalls : CallsOut → RunAcc
  | CallsOut.done _ a => a
  | CallsOut.abort _ _ a => a

/-- The counters carried by a `SandboxOut`. -/
def accOfSb : SandboxOut → RunAcc
  | SandboxOut.ok _ _ _ a => a
  | SandboxOut.err _ _ a => a

/-! ### Every spawned child is exactly one depth deeper -/

theorem recCallStep_spawned (run : RunFn) (cfg : Cfg) (depth : Nat)
    (q c : String) (clk : Nat) (acc : RunAcc)
    (h : ∀ d ∈ acc.spawnedDepths, d = depth + 1) :
    ∀ d ∈ (accOfCall (recCallStep run cfg depth q c clk acc)).spawnedDepths,
      d = depth + 1 := by
  simp only [recCallStep]
  by_cases h1 : cfg.maxDepth ≤ depth + 1
  · rw [if_pos h1]; exact h
  · rw [if_neg h1]
    by_cases h2 : cfgBudgetValid (childCfg cfg acc.cost) = true
    · rw [if_pos h2]
      cases hres : (run (childCfg cfg acc.cost) (depth + 1) q c clk).out with
      | ok d =>
        simp only [accOfCall, mergeChild]
        intro x hx
        rcases List.mem_append.mp hx with hx | hx
        · exact h x hx
        · simpa using hx
      | err e =>
        simp only [accOfCall]
        intro x hx
        rcases List.mem_append.mp hx with hx | hx
        · exact h x hx
        · simpa using hx
    · rw [if_neg h2]; exact h

theorem runCalls_spawned (run : RunFn) (cfg : Cfg) (depth : Nat) :
    ∀ (calls : List (String × String)) (clk : Nat) (acc : RunAcc),
    (∀ d ∈ acc.spawnedDepths, d = depth + 1) →
    ∀ d ∈ (accOfCalls (runCalls run cfg depth calls clk acc)).spawnedDepths,
      d = depth + 1 := by
  intro calls
  induction calls with
  | nil => intro clk acc h; exact h
  | cons x rest ih =>
    intro clk acc h
    unfold runCalls
    cases hrc : recCallStep run cfg depth x.1 x.2 clk acc with
    | ok ans clk1 acc1 =>
      have := recCallStep_spawned run cfg depth x.1 x.2 clk acc h
      rw [hrc] at this
      exact ih clk1 acc1 this
    | abort m clk1 acc1 =>
      have := recCallStep_spawned run cfg depth x.1 x.2 clk acc h
      rw [hrc] at this
      exact this

theorem sandboxExecP_spawned (checker : String → Option String) (run : RunFn)
    (dyn : String → DynBehavior) (cfg : Cfg) (depth : Nat) (response : String)
    (env : SandboxEnvironment) (clk : Nat) (acc : RunAcc)
    (h : ∀ d ∈ acc.spawnedDepths, d = depth + 1) :
    ∀ d ∈ (accOfSb (sandboxExecP checker run dyn cfg depth response env clk acc)).spawnedDepths,
      d = depth + 1 := by
  unfold sandboxExecP
  by_cases h1 : codeOf response = ""
  · rw [if_pos h1]; exact h
  · rw [if_neg h1]
    cases checker (codeOf response) with
    | some tok => exact h
    | none =>
      cases dyn (codeOf response) with
      | fails m => exact h
      | runs calls out =>
        simp only
        cases hrc : runCalls run cfg depth calls clk acc with
        | done clk1 acc1 =>
          have := runCalls_spawned run cfg depth calls clk acc h
          rw [hrc] at this
          exact this
        | abort m clk1 acc1 =>
          have := runCalls_spawned run cfg depth calls clk acc h
          rw [hrc] at this
          exact this

theorem iterLoop_spawned (run : RunFn) (prov : Nat → ProvResp)
    (dyn : String → DynBehavior) (cfg : Cfg) (depth : Nat) :
    ∀ (r : Nat) (msgs : List Msg) (env : SandboxEnvironment) (clk : Nat)
      (acc : RunAcc),
    (∀ d ∈ acc.spawnedDepths, d = depth + 1) →
    ∀ d ∈ (iterLoop run prov dyn cfg depth r msgs env clk acc).acc.spawnedDepths,
      d = depth + 1 := by
  intro r
  induction r with
  | zero => intro msgs env clk acc h; exact h
  | succ r ih =>
    intro msgs env clk acc h
    rw [iterLoop]
    cases budgetHit cfg (setIter cfg r acc) with
    | some b => exact h
    | none =>
      simp only
      have hd : ∀ d ∈ (markSandboxed (prov clk).content
          (dispatchAcc cfg depth (prov clk) (setIter cfg r acc))).spawnedDepths,
          d = depth + 1 := h
      cases terminalGate (prov clk).content env with
      | some pr => exact h
      | none =>
        simp only
        cases hsb : sandboxExecP containsForbiddenPattern run dyn cfg depth
            (prov clk).content env (clk + 1)
            (markSandboxed (prov clk).content
              (dispatchAcc cfg depth (prov clk) (setIter cfg r acc))) with
        | ok out env1 clk2 acc3 =>
          have := sandboxExecP_spawned containsForbiddenPattern run dyn cfg depth
            (prov clk).content env (clk + 1) _ hd
          rw [hsb] at this
          exact ih _ env1 clk2 acc3 this
        | err m clk2 acc3 =>
          have := sandboxExecP_spawned containsForbiddenPattern run dyn cfg depth
            (prov clk).content env (clk + 1) _ hd
          rw [hsb] at this
          exact ih _ env clk2 (bumpRepl acc3) this

theorem runRLM_spawned (prov : Nat → ProvResp) (dyn : String → DynBehavior)
    (gas : Nat) (cfg : Cfg) (depth : Nat) (q c : String) (clk : Nat) :
    ∀ d ∈ (runRLM prov dyn gas cfg depth q c clk).acc.spawnedDepths,
      d = depth + 1 := by
  cases gas with
  | zero => intro d hd; simp [runRLM, zeroAcc] at hd
  | succ g =>
    rw [runRLM]
    by_cases h1 : cfg.maxDepth ≤ depth
    · rw [if_pos h1]; intro d hd; simp [zeroAcc] at hd
    · rw [if_neg h1]
      exact iterLoop_spawned _ prov dyn cfg depth _ _ _ clk zeroAcc
        (by intro d hd; simp [zeroAcc] at hd)

/-! ### No dispatch at or past `maxDepth` -/

theorem recCallStep_callDepths (run : RunFn) (cfg : Cfg) (depth : Nat)
    (q c : String) (clk : Nat) (acc : RunAcc)
    (hrun : ∀ (cfg' : Cfg) (d : Nat) (q' c' : String) (k : Nat),
      ∀ x ∈ (run cfg' d q' c' k).acc.callDepths, x < cfg'.maxDepth)
    (h : ∀ x ∈ acc.callDepths, x < cfg.maxDepth) :
    ∀ x ∈ (accOfCall (recCallStep run cfg depth q c clk acc)).callDepths,
      x < cfg.maxDepth := by
  simp only [recCallStep]
  by_cases h1 : cfg.maxDepth ≤ depth + 1
  · rw [if_pos h1]; exact h
  · rw [if_neg h1]
    by_cases h2 : cfgBudgetValid (childCfg cfg acc.cost) = true
    · rw [if_pos h2]
      have hchild : ∀ x ∈ (run (childCfg cfg acc.cost) (depth + 1) q c clk).acc.callDepths,
          x < cfg.maxDepth := by
        intro x hx
        have := hrun (childCfg cfg acc.cost) (depth + 1) q c clk x hx
        simpa [childCfg] using this
      cases hres : (run (childCfg cfg acc.cost) (depth + 1) q c clk).out with
      | ok d =>
        simp only [accOfCall, mergeChild]
        intro x hx
        rcases List.mem_append.mp hx with hx | hx
        · exact h x hx
        · exact hchild x hx
      | err e =>
        simp only [accOfCall]
        intro x hx
        rcases List.mem_append.mp hx with hx | hx
        · exact h x hx
        · exact hchild x hx
    · rw [if_neg h2]; exact h

theorem runCalls_callDepths (run : RunFn) (cfg : Cfg) (depth : Nat)
    (hrun : ∀ (cfg' : Cfg) (d : Nat) (q' c' : String) (k : Nat),
      ∀ x ∈ (run cfg' d q' c' k).acc.callDepths, x < cfg'.maxDepth) :
    ∀ (calls : List (String × String)) (clk : Nat) (acc : RunAcc),
    (∀ x ∈ acc.callDepths, x < cfg.maxDepth) →
    ∀ x ∈ (accOfCalls (runCalls run cfg depth calls clk acc)).callDepths,
      x < cfg.maxDepth := by
  intro calls
  induction calls with
  | nil => intro clk acc h; exact h
  | cons p rest ih =>
    intro clk acc h
    unfold runCalls
    cases hrc : recCallStep run cfg depth p.1 p.2 clk acc with
    | ok ans clk1 acc1 =>
      have := recCallStep_callDepths run cfg depth p.1 p.2 clk acc hrun h
      rw [hrc] at this
      exact ih clk1 acc1 this
    | abort m clk1 acc1 =>
      have := recCallStep_callDepths run cfg depth p.1 p.2 clk acc hrun h
      rw [hrc] at this
      exact this

theorem sandboxExecP_callDepths (checker : String → Option String) (run : RunFn)
    (dyn : String → DynBehavior) (cfg : Cfg) (depth : Nat) (response : String)
    (env : SandboxEnvironment) (clk : Nat) (acc : RunAcc)
    (hrun : ∀ (cfg' : Cfg) (d : Nat) (q' c' : String) (k : Nat),
      ∀ x ∈ (run cfg' d q' c' k).acc.callDepths, x < cfg'.maxDepth)
    (h : ∀ x ∈ acc.callDepths, x < cfg.maxDepth) :
    ∀ x ∈ (accOfSb (sandboxExecP checker run dyn cfg depth response env clk acc)).callDepths,
      x < cfg.maxDepth := by
  unfold sandboxExecP
  by_cases h1 : codeOf response = ""
  · rw [if_pos h1]; exact h
  · rw [if_neg h1]
    cases checker (codeOf response) with
    | some tok => exact h
    | none =>
      cases dyn (codeOf response) with
      | fails m => exact h
      | runs calls out =>
        simp only
        cases hrc : runCalls run cfg depth calls clk acc with
        | done clk1 acc1 =>
          have := runCalls_callDepths run cfg depth hrun calls clk acc h
          rw [hrc] at this
          exact this
        | abort m clk1 acc1 =>
          have := runCalls_callDepths run cfg depth hrun calls clk acc h
          rw [hrc] at this
          exact this

theorem iterLoop_callDepths (run : RunFn) (prov : Nat → ProvResp)
    (dyn : String → DynBehavior) (cfg : Cfg) (depth : Nat)
    (hrun : ∀ (cfg' : Cfg) (d : Nat) (q' c' : String) (k : Nat),
      ∀ x ∈ (run cfg' d q' c' k).acc.callDepths, x < cfg'.maxDepth)
    (hdep : depth < cfg.maxDepth) :
    ∀ (r : Nat) (msgs : List Msg) (env : SandboxEnvironment) (clk : Nat)
      (acc : RunAcc),
    (∀ x ∈ acc.callDepths, x < cfg.maxDepth) →
    ∀ x ∈ (iterLoop run prov dyn cfg depth r msgs env clk acc).acc.callDepths,
      x < cfg.maxDepth := by
  intro r
  induction r with
  | zero => intro msgs env clk acc h; exact h
  | succ r ih =>
    intro msgs env clk acc h
    rw [iterLoop]
    cases budgetHit cfg (setIter cfg r acc) with
    | some b => exact h
    | none =>
      simp only
      have hd : ∀ x ∈ (markSandboxed (prov clk).content
          (dispatchAcc cfg depth (prov clk) (setIter cfg r acc))).callDepths,
          x < cfg.maxDepth := by
        simp only [markSandboxed, dispatchAcc, setIter]
        intro x hx
        rcases List.mem_append.mp hx with hx | hx
        · exact h x hx
        · simp at hx
          omega
      cases terminalGate (prov clk).content env with
      | some pr =>
        simp only [dispatchAcc, setIter]
        intro x hx
        rcases List.mem_append.mp hx with hx | hx
        · exact h x hx
        · simp at hx
          omega
      | none =>
        simp only
        cases hsb : sandboxExecP containsForbiddenPattern run dyn cfg depth
            (prov clk).content env (clk + 1)
            (markSandboxed (prov clk).content
              (dispatchAcc cfg depth (prov clk) (setIter cfg r acc))) with
        | ok out env1 clk2 acc3 =>
          have := sandboxExecP_callDepths containsForbiddenPattern run dyn cfg depth
            (prov clk).content env (clk + 1) _ hrun hd
          rw [hsb] at this
          exact ih _ env1 clk2 acc3 this
        | err m clk2 acc3 =>
          have := sandboxExecP_callDepths containsForbiddenPattern run dyn cfg depth
            (prov clk).content env (clk + 1) _ hrun hd
          rw [hsb] at this
          exact ih _ env clk2 (bumpRepl acc3) this

/-- Every provider dispatch anywhere in a run's subtree happens at a
depth strictly below `maxDepth`. -/
theorem runRLM_callDepths (prov : Nat → ProvResp) (dyn : String → DynBehavior) :
    ∀ (gas : Nat) (cfg : Cfg) (depth : Nat) (q c : String) (clk : Nat),
    ∀ x ∈ (runRLM prov dyn gas cfg depth q c clk).acc.callDepths,
      x < cfg.maxDepth := by
  intro gas
  induction gas with
  | zero => intro cfg depth q c clk x hx; simp [runRLM, zeroAcc] at hx
  | succ g ih =>
    intro cfg depth q c clk
    rw [runRLM]
    by_cases h1 : cfg.maxDepth ≤ depth
    · rw [if_pos h1]; intro x hx; simp [zeroAcc] at hx
    · rw [if_neg h1]
      exact iterLoop_callDepths _ prov dyn cfg depth
        (fun cfg' d q' c' k => ih cfg' d q' c' k) (by omega) _ _ _ clk zeroAcc
        (by intro x hx; simp [zeroAcc] at hx)

/-! ### Stats additivity: calls = own dispatches + merged children -/

/-- Total `llmCalls` of merged child snapshots. -/
def sumCalls (l : List StatsSnap) : Nat := (l.map fun s => s.llmCalls).sum

/-- Total `estimatedCost` of merged child snapshots. -/
def sumCost (l : List StatsSnap) : ℚ := (l.map fun s => s.cost).sum

/-- The additivity invariant: the call counter always equals the run's
own dispatches plus everything merged from children, and likewise for
cost. -/
def addInv (a : RunAcc) : Prop :=
  a.llmCalls = a.own + sumCalls a.merged ∧ a.cost = a.ownCost + sumCost a.merged

theorem addInv_zero : addInv zeroAcc := by
  constructor <;> simp [zeroAcc, sumCalls, sumCost]

theorem addInv_mergeChild {a : RunAcc} (c : StatsSnap) (h : addInv a) :
    addInv (mergeChild a c) := by
  obtain ⟨h1, h2⟩ := h
  constructor
  · simp only [mergeChild, sumCalls, List.map_append, List.sum_append,
      List.map_cons, List.map_nil, List.sum_cons, List.sum_nil]
    simp [sumCalls] at h1
    omega
  · simp only [mergeChild, sumCost, List.map_append, List.sum_append,
      List.map_cons, List.map_nil, List.sum_cons, List.sum_nil]
    simp [sumCost] at h2
    rw [h2]
    ring

theorem addInv_dispatch {a : RunAcc} (cfg : Cfg) (depth : Nat) (resp : ProvResp)
    (h : addInv a) : addInv (dispatchAcc cfg depth resp a) := by
  obtain ⟨h1, h2⟩ := h
  constructor
  · simp only [dispatchAcc]
    omega
  · simp only [dispatchAcc]
    rw [h2]
    ring

theorem recCallStep_addInv (run : RunFn) (cfg : Cfg) (depth : Nat)
    (q c : String) (clk : Nat) (acc : RunAcc) (h : addInv acc) :
    addInv (accOfCall (recCallStep run cfg depth q c clk acc)) := by
  simp only [recCallStep]
  by_cases h1 : cfg.maxDepth ≤ depth + 1
  · rw [if_pos h1]; exact h
  · rw [if_neg h1]
    by_cases h2 : cfgBudgetValid (childCfg cfg acc.cost) = true
    · rw [if_pos h2]
      cases hres : (run (childCfg cfg acc.cost) (depth + 1) q c clk).out with
      | ok d =>
        simp only [accOfCall]
        exact addInv_mergeChild _ ⟨h.1, h.2⟩
      | err e =>
        simp only [accOfCall]
        exact h
    · rw [if_neg h2]; exact h

theorem runCalls_addInv (run : RunFn) (cfg : Cfg) (depth : Nat) :
    ∀ (calls : List (String × String)) (clk : Nat) (acc : RunAcc),
    addInv acc → addInv (accOfCalls (runCalls run cfg depth calls clk acc)) := by
  intro calls
  induction calls with
  | nil => intro clk acc h; exact h
  | cons p rest ih =>
    intro clk acc h
    unfold runCalls
    cases hrc : recCallStep run cfg depth p.1 p.2 clk acc with
    | ok ans clk1 acc1 =>
      have := recCallStep_addInv run cfg depth p.1 p.2 clk acc h
      rw [hrc] at this
      exact ih clk1 acc1 this
    | abort m clk1 acc1 =>
      have := recCallStep_addInv run cfg depth p.1 p.2 clk acc h
      rw [hrc] at this
      exact this

theorem sandboxExecP_addInv (checker : String → Option String) (run : RunFn)
    (dyn : String → DynBehavior) (cfg : Cfg) (depth : Nat) (response : String)
    (env : SandboxEnvironment) (clk : Nat) (acc : RunAcc) (h : addInv acc) :
    addInv (accOfSb (sandboxExecP checker run dyn cfg depth response env clk acc)) := by
  unfold sandboxExecP
  by_cases h1 : codeOf response = ""
  · rw [if_pos h1]; exact h
  · rw [if_neg h1]
    cases checker (codeOf response) with
    | some tok => exact h
    | none =>
      cases dyn (codeOf response) with
      | fails m => exact h
      | runs calls out =>
        simp only
        cases hrc : runCalls run cfg depth calls clk acc with
        | done clk1 acc1 =>
          have := runCalls_addInv run cfg depth calls clk acc h
          rw [hrc] at this
          exact this
        | abort m clk1 acc1 =>
          have := runCalls_addInv run cfg depth calls clk acc h
          rw [hrc] at this
          exact this

theorem addInv_setIter {a : RunAcc} (cfg : Cfg) (r : Nat) (h : addInv a) :
    addInv (setIter cfg r a) := h

theorem addInv_markSandboxed {a : RunAcc} (s : String) (h : addInv a) :
    addInv (markSandboxed s a) := h

theorem addInv_bumpRepl {a : RunAcc} (h : addInv a) : addInv (bumpRepl a) := h

theorem iterLoop_addInv (run : RunFn) (prov : Nat → ProvResp)
    (dyn : String → DynBehavior) (cfg : Cfg) (depth : Nat) :
    ∀ (r : Nat) (msgs : List Msg) (env : SandboxEnvironment) (clk : Nat)
      (acc : RunAcc),
    addInv acc → addInv (iterLoop run prov dyn cfg depth r msgs env clk acc).acc := by
  intro r
  induction r with
  | zero => intro msgs env clk acc h; exact h
  | succ r ih =>
    intro msgs env clk acc h
    rw [iterLoop]
    cases budgetHit cfg (setIter cfg r acc) with
    | some b => exact addInv_setIter cfg r h
    | none =>
      simp only
      have hd : addInv (markSandboxed (prov clk).content
          (dispatchAcc cfg depth (prov clk) (setIter cfg r acc))) :=
        addInv_markSandboxed _ (addInv_dispatch cfg depth _ (addInv_setIter cfg r h))
      cases terminalGate (prov clk).content env with
      | some pr => exact addInv_dispatch cfg depth _ (addInv_setIter cfg r h)
      | none =>
        simp only
        cases hsb : sandboxExecP containsForbiddenPattern run dyn cfg depth
            (prov clk).content env (clk + 1)
            (markSandboxed (prov clk).content
              (dispatchAcc cfg depth (prov clk) (setIter cfg r acc))) with
        | ok out env1 clk2 acc3 =>
          have := sandboxExecP_addInv containsForbiddenPattern run dyn cfg depth
            (prov clk).content env (clk + 1) _ hd
          rw [hsb] at this
          exact ih _ env1 clk2 acc3 this
        | err m clk2 acc3 =>
          have := sandboxExecP_addInv containsForbiddenPattern run dyn cfg depth
            (prov clk).content env (clk + 1) _ hd
          rw [hsb] at this
          exact ih _ env clk2 (bumpRepl acc3) (addInv_bumpRepl this)

theorem runRLM_addInv (prov : Nat → ProvResp) (dyn : String → DynBehavior)
    (gas : Nat) (cfg : Cfg) (depth : Nat) (q c : String) (clk : Nat) :
    addInv (runRLM prov dyn gas cfg depth q c clk).acc := by
  cases gas with
  | zero => exact addInv_zero
  | succ g =>
    rw [runRLM]
    by_cases h1 : cfg.maxDepth ≤ depth
    · rw [if_pos h1]; exact addInv_zero
    · rw [if_neg h1]
      exact iterLoop_addInv _ prov dyn cfg depth _ _ _ clk zeroAcc addInv_zero

/-! ### The stats-merge counterexample scenario (claim C5)

Root at depth 0 (`maxDepth` 5): iteration 1 executes a snippet that
delegates once; the child completes at depth 1 with one call; iteration
2 terminates the root. -/

/-- Configuration of the merge scenario. -/
def cfgC5 : Cfg := ⟨"claude-sonnet-4", "claude-haiku", 5, 30, 2000, none⟩

/-- The snippet the root model produces at iteration 1. -/
def snippetC5 : String :=
  "const sub = await recursiveLlm(\"q1\", \"c1\");\nconsole.log(sub);"

/-- Scripted provider: snippet, then the child's terminal marker, then
the root's terminal marker. -/
def provC5 : Nat → ProvResp := fun n =>
  if n = 0 then ⟨"```js\n" ++ snippetC5 ++ "\n```", 10, 5⟩
  else if n = 1 then ⟨"FINAL(\"child-answer\")", 8, 4⟩
  else ⟨"FINAL(\"root\")", 12, 6⟩

/-- Scripted snippet semantics: the iteration-1 snippet performs one
recursive call. -/
def dynC5 : String → DynBehavior := fun code =>
  if code = snippetC5 then DynBehavior.runs [("q1", "c1")] "child-answer"
  else DynBehavior.runs [] ""

/-! ### Cost monotonicity -/

set_option maxHeartbeats 1000000 in
theorem calculateCost_nonneg (model : String) (inputTokens outputTokens : Nat) :
    0 ≤ calculateCost model inputTokens outputTokens := by
  unfold calculateCost
  cases hm : MODEL_PRICING model with
  | none => positivity
  | some p =>
    have hp : 0 ≤ p.1 ∧ 0 ≤ p.2 := by
      unfold MODEL_PRICING at hm
      split_ifs at hm <;>
        first
        | (injection hm with hm; rw [← hm]; exact ⟨by norm_num, by norm_num⟩)
        | simp at hm
    have hnum : 0 ≤ (inputTokens : ℚ) * p.1 + (outputTokens : ℚ) * p.2 :=
      add_nonneg (mul_nonneg (Nat.cast_nonneg _) hp.1)
        (mul_nonneg (Nat.cast_nonneg _) hp.2)
    exact div_nonneg hnum (by norm_num)

theorem recCallStep_cost (run : RunFn) (cfg : Cfg) (depth : Nat)
    (q c : String) (clk : Nat) (acc : RunAcc)
    (hrun : ∀ (cfg' : Cfg) (d : Nat) (q' c' : String) (k : Nat),
      0 ≤ (run cfg' d q' c' k).acc.cost) :
    acc.cost ≤ (accOfCall (recCallStep run cfg depth q c clk acc)).cost := by
  simp only [recCallStep]
  by_cases h1 : cfg.maxDepth ≤ depth + 1
  · rw [if_pos h1]; exact le_refl _
  · rw [if_neg h1]
    by_cases h2 : cfgBudgetValid (childCfg cfg acc.cost) = true
    · rw [if_pos h2]
      cases hres : (run (childCfg cfg acc.cost) (depth + 1) q c clk).out with
      | ok d =>
        simp only [accOfCall, mergeChild, snapOf]
        have := hrun (childCfg cfg acc.cost) (depth + 1) q c clk
        linarith
      | err e => exact le_refl _
    · rw [if_neg h2]; exact le_refl _

theorem runCalls_cost (run : RunFn) (cfg : Cfg) (depth : Nat)
    (hrun : ∀ (cfg' : Cfg) (d : Nat) (q' c' : String) (k : Nat),
      0 ≤ (run cfg' d q' c' k).acc.cost) :
    ∀ (calls : List (String × String)) (clk : Nat) (acc : RunAcc),
    acc.cost ≤ (accOfCalls (runCalls run cfg depth calls clk acc)).cost := by
  intro calls
  induction calls with
  | nil => intro clk acc; exact le_refl _
  | cons p rest ih =>
    intro clk acc
    unfold runCalls
    cases hrc : recCallStep run cfg depth p.1 p.2 clk acc with
    | ok ans clk1 acc1 =>
      have h1 := recCallStep_cost run cfg depth p.1 p.2 clk acc hrun
      rw [hrc] at h1
      exact le_trans h1 (ih clk1 acc1)
    | abort m clk1 acc1 =>
      have h1 := recCallStep_cost run cfg depth p.1 p.2 clk acc hrun
      rw [hrc] at h1
      exact h1

theorem sandboxExecP_cost (checker : String → Option String) (run : RunFn)
    (dyn : String → DynBehavior) (cfg : Cfg) (depth : Nat) (response : String)
    (env : SandboxEnvironment) (clk : Nat) (acc : RunAcc)
    (hrun : ∀ (cfg' : Cfg) (d : Nat) (q' c' : String) (k : Nat),
      0 ≤ (run cfg' d q' c' k).acc.cost) :
    acc.cost ≤ (accOfSb (sandboxExecP checker run dyn cfg depth response env clk acc)).cost := by
  unfold sandboxExecP
  by_cases h1 : codeOf response = ""
  · rw [if_pos h1]; exact le_refl _
  · rw [if_neg h1]
    cases checker (codeOf response) with
    | some tok => exact le_refl _
    | none =>
      cases dyn (codeOf response) with
      | fails m => exact le_refl _
      | runs calls out =>
        simp only
        cases hrc : runCalls run cfg depth calls clk acc with
        | done clk1 acc1 =>
          have := runCalls_cost run cfg depth hrun calls clk acc
          rw [hrc] at this
          exact this
        | abort m clk1 acc1 =>
          have := runCalls_cost run cfg depth hrun calls clk acc
          rw [hrc] at this
          exact this

theorem iterLoop_cost (run : RunFn) (prov : Nat → ProvResp)
    (dyn : String → DynBehavior) (cfg : Cfg) (depth : Nat)
    (hrun : ∀ (cfg' : Cfg) (d : Nat) (q' c' : String) (k : Nat),
      0 ≤ (run cfg' d q' c' k).acc.cost) :
    ∀ (r : Nat) (msgs : List Msg) (env : SandboxEnvironment) (clk : Nat)
      (acc : RunAcc),
    acc.cost ≤ (iterLoop run prov dyn cfg depth r msgs env clk acc).acc.cost := by
  intro r
  induction r with
  | zero => intro msgs env clk acc; exact le_refl _
  | succ r ih =>
    intro msgs env clk acc
    rw [iterLoop]
    cases budgetHit cfg (setIter cfg r acc) with
    | some b => exact le_refl _
    | none =>
      simp only
      have hstep : acc.cost ≤ (markSandboxed (prov clk).content
          (dispatchAcc cfg depth (prov clk) (setIter cfg r acc))).cost := by
        simp only [markSandboxed, dispatchAcc, setIter]
        have := calculateCost_nonneg (dispatchModel cfg depth)
          (prov clk).inputTokens (prov clk).outputTokens
        linarith
      cases terminalGate (prov clk).content env with
      | some pr =>
        simp only [dispatchAcc, setIter]
        have := calculateCost_nonneg (dispatchModel cfg depth)
          (prov clk).inputTokens (prov clk).outputTokens
        linarith
      | none =>
        simp only
        cases hsb : sandboxExecP containsForbiddenPattern run dyn cfg depth
            (prov clk).content env (clk + 1)
            (markSandboxed (prov clk).content
              (dispatchAcc cfg depth (prov clk) (setIter cfg r acc))) with
        | ok out env1 clk2 acc3 =>
          have h2 := sandboxExecP_cost containsForbiddenPattern run dyn cfg depth
            (prov clk).content env (clk + 1)
            (markSandboxed (prov clk).content
              (dispatchAcc cfg depth (prov clk) (setIter cfg r acc))) hrun
          rw [hsb] at h2
          exact le_trans hstep (le_trans h2 (ih _ env1 clk2 acc3))
        | err m clk2 acc3 =>
          have h2 := sandboxExecP_cost containsForbiddenPattern run dyn cfg depth
            (prov clk).content env (clk + 1)
            (markSandboxed (prov clk).content
              (dispatchAcc cfg depth (prov clk) (setIter cfg r acc))) hrun
          rw [hsb] at h2
          exact le_trans hstep (le_trans h2 (ih _ env clk2 (bumpRepl acc3)))

/-- The accumulated cost of any run is non-negative. -/
theorem runRLM_cost_nonneg (prov : Nat → ProvResp) (dyn : String → DynBehavior) :
    ∀ (gas : Nat) (cfg : Cfg) (depth : Nat) (q c : String) (clk : Nat),
    0 ≤ (runRLM prov dyn gas cfg depth q c clk).acc.cost := by
  intro gas
  induction gas with
  | zero => intro cfg depth q c clk; simp [runRLM, zeroAcc]
  | succ g ih =>
    intro cfg depth q c clk
    rw [runRLM]
    by_cases h1 : cfg.maxDepth ≤ depth
    · rw [if_pos h1]; simp [zeroAcc]
    · rw [if_neg h1]
      have := iterLoop_cost _ prov dyn cfg depth
        (fun cfg' d q' c' k => ih cfg' d q' c' k) cfg.maxIterations
        [⟨Role.system, buildSystemPrompt c.length depth cfg.maxDepth⟩,
         ⟨Role.user, buildUserPrompt q⟩] ⟨c, q, []⟩ clk zeroAcc
      have h0 : zeroAcc.cost = 0 := rfl
      linarith [this]

/-! ### Termination happens only behind the `isFinal` gate -/

theorem terminalGate_isFinal {content : String} {env : SandboxEnvironment}
    {pr : ParsedFinal} (h : terminalGate content env = some pr) :
    isFinal content = true := by
  by_cases hf : isFinal content = true
  · exact hf
  · rw [terminalGate, if_neg (by simpa using hf)] at h
    exact Option.noConfusion h

theorem iterLoop_ok_isFinal (run : RunFn) (prov : Nat → ProvResp)
    (dyn : String → DynBehavior) (cfg : Cfg) (depth : Nat) :
    ∀ (r : Nat) (msgs : List Msg) (env : SandboxEnvironment) (clk : Nat)
      (acc : RunAcc) (d : Done),
    (iterLoop run prov dyn cfg depth r msgs env clk acc).out = Outcome.ok d →
    ∃ n, isFinal (prov n).content = true := by
  intro r
  induction r with
  | zero =>
    intro msgs env clk acc d h
    exact Outcome.noConfusion h
  | succ r ih =>
    intro msgs env clk acc d h
    rw [iterLoop] at h
    revert h
    cases budgetHit cfg (setIter cfg r acc) with
    | some b => intro h; exact Outcome.noConfusion h
    | none =>
      simp only
      cases ht : terminalGate (prov clk).content env with
      | some pr =>
        intro _
        exact ⟨clk, terminalGate_isFinal ht⟩
      | none =>
        simp only
        cases hsb : sandboxExecP containsForbiddenPattern run dyn cfg depth
            (prov clk).content env (clk + 1)
            (markSandboxed (prov clk).content
              (dispatchAcc cfg depth (prov clk) (setIter cfg r acc))) with
        | ok out env1 clk2 acc3 =>
          intro h
          exact ih _ env1 clk2 acc3 d h
        | err m clk2 acc3 =>
          intro h
          exact ih _ env clk2 (bumpRepl acc3) d h

/-- A run can only produce a `TerminalResult` if some provider response
contains an exact `isFinal` substring. -/
theorem runRLM_ok_isFinal (prov : Nat → ProvResp) (dyn : String → DynBehavior)
    (gas : Nat) (cfg : Cfg) (depth : Nat) (q c : String) (clk : Nat) (d : Done)
    (h : (runRLM prov dyn gas cfg depth q c clk).out = Outcome.ok d) :
    ∃ n, isFinal (prov n).content = true := by
  cases gas with
  | zero => exact Outcome.noConfusion h
  | succ g =>
    rw [runRLM] at h
    by_cases h1 : cfg.maxDepth ≤ depth
    · rw [if_pos h1] at h
      exact Outcome.noConfusion h
    · rw [if_neg h1] at h
      exact iterLoop_ok_isFinal _ prov dyn cfg depth _ _ _ clk zeroAcc d h

/-! ### The responses handed to the sandbox -/

theorem recCallStep_sandboxed (run : RunFn) (cfg : Cfg) (depth : Nat)
    (q c : String) (clk : Nat) (acc : RunAcc) :
    (accOfCall (recCallStep run cfg depth q c clk acc)).sandboxed =
      acc.sandboxed := by
  simp only [recCallStep]
  by_cases h1 : cfg.maxDepth ≤ depth + 1
  · rw [if_pos h1]
    rfl
  · rw [if_neg h1]
    by_cases h2 : cfgBudgetValid (childCfg cfg acc.cost) = true
    · rw [if_pos h2]
      cases hres : (run (childCfg cfg acc.cost) (depth + 1) q c clk).out with
      | ok d => rfl
      | err e => rfl
    · rw [if_neg h2]
      rfl

theorem runCalls_sandboxed (run : RunFn) (cfg : Cfg) (depth : Nat) :
    ∀ (calls : List (String × String)) (clk : Nat) (acc : RunAcc),
    (accOfCalls (runCalls run cfg depth calls clk acc)).sandboxed =
      acc.sandboxed := by
  intro calls
  induction calls with
  | nil => intro clk acc; rfl
  | cons p rest ih =>
    intro clk acc
    unfold runCalls
    cases hrc : recCallStep run cfg depth p.1 p.2 clk acc with
    | ok ans clk1 acc1 =>
      have h1 := recCallStep_sandboxed run cfg depth p.1 p.2 clk acc
      rw [hrc] at h1
      rw [ih clk1 acc1]
      exact h1
    | abort m clk1 acc1 =>
      have h1 := recCallStep_sandboxed run cfg depth p.1 p.2 clk acc
      rw [hrc] at h1
      exact h1

theorem sandboxExecP_sandboxed (checker : String → Option String) (run : RunFn)
    (dyn : String → DynBehavior) (cfg : Cfg) (depth : Nat) (response : String)
    (env : SandboxEnvironment) (clk : Nat) (acc : RunAcc) :
    (accOfSb (sandboxExecP checker run dyn cfg depth response env clk acc)).sandboxed =
      acc.sandboxed := by
  unfold sandboxExecP
  by_cases h1 : codeOf response = ""
  · rw [if_pos h1]
    rfl
  · rw [if_neg h1]
    cases checker (codeOf response) with
    | some tok => rfl
    | none =>
      cases dyn (codeOf response) with
      | fails m => rfl
      | runs calls out =>
        simp only
        cases hrc : runCalls run cfg depth calls clk acc with
        | done clk1 acc1 =>
          have := runCalls_sandboxed run cfg depth calls clk acc
          rw [hrc] at this
          exact this
        | abort m clk1 acc1 =>
          have := runCalls_sandboxed run cfg depth calls clk acc
          rw [hrc] at this
          exact this

theorem iterLoop_sandboxed_mono (run : RunFn) (prov : Nat → ProvResp)
    (dyn : String → DynBehavior) (cfg : Cfg) (depth : Nat) :
    ∀ (r : Nat) (msgs : List Msg) (env : SandboxEnvironment) (clk : Nat)
      (acc : RunAcc),
    acc.sandboxed <+: (iterLoop run prov dyn cfg depth r msgs env clk acc).acc.sandboxed := by
  intro r
  induction r with
  | zero => intro msgs env clk acc; exact List.prefix_refl _
  | succ r ih =>
    intro msgs env clk acc
    rw [iterLoop]
    cases budgetHit cfg (setIter cfg r acc) with
    | some b => exact List.prefix_refl _
    | none =>
      simp only
      cases terminalGate (prov clk).content env with
      | some pr => exact List.prefix_refl _
      | none =>
        simp only
        cases hsb : sandboxExecP containsForbiddenPattern run dyn cfg depth
            (prov clk).content env (clk + 1)
            (markSandboxed (prov clk).content
              (dispatchAcc cfg depth (prov clk) (setIter cfg r acc))) with
        | ok out env1 clk2 acc3 =>
          have h1 := sandboxExecP_sandboxed containsForbiddenPattern run dyn cfg
            depth (prov clk).content env (clk + 1)
            (markSandboxed (prov clk).content
              (dispatchAcc cfg depth (prov clk) (setIter cfg r acc)))
          rw [hsb] at h1
          simp only [accOfSb] at h1
          have h4 : acc.sandboxed ++ [(prov clk).content] = acc3.sandboxed := h1.symm
          refine List.IsPrefix.trans ⟨[(prov clk).content], rfl⟩ ?_
          rw [h4]
          exact ih _ env1 clk2 acc3
        | err m clk2 acc3 =>
          have h1 := sandboxExecP_sandboxed containsForbiddenPattern run dyn cfg
            depth (prov clk).content env (clk + 1)
            (markSandboxed (prov clk).content
              (dispatchAcc cfg depth (prov clk) (setIter cfg r acc)))
          rw [hsb] at h1
          simp only [accOfSb] at h1
          have h4 : acc.sandboxed ++ [(prov clk).content] = (bumpRepl acc3).sandboxed :=
            h1.symm
          refine List.IsPrefix.trans ⟨[(prov clk).content], rfl⟩ ?_
          rw [h4]
          exact ih _ env clk2 (bumpRepl acc3)

/-! ### The FINAL_VAR scenario (claim C3)

Iteration 1 executes a snippet that defines a variable; iteration 2
returns `FINAL_VAR` naming it, exactly as the project README and the
system prompt instruct (`const result = …; FINAL_VAR(result)`). -/

/-- Configuration of the FINAL_VAR scenario. -/
def cfgC3 : Cfg := ⟨"claude-sonnet-4", "claude-haiku", 5, 30, 2000, none⟩

/-- The variable-defining snippet of iteration 1. -/
def snippetC3 : String := "const answer_1 = \"42\";\nconsole.log(answer_1);"

/-- Scripted provider: the snippet, then `FINAL_VAR(answer_1)`, then a
plain terminal marker. -/
def provC3 : Nat → ProvResp := fun n =>
  if n = 0 then ⟨"```js\n" ++ snippetC3 ++ "\n```", 10, 5⟩
  else if n = 1 then ⟨"FINAL_VAR(answer_1)", 8, 4⟩
  else ⟨"FINAL(\"done\")", 12, 6⟩

/-- Scripted snippet semantics: the defining snippet prints the value;
running the bare `FINAL_VAR(answer_1)` text as code fails (as it does in
JS, where `FINAL_VAR` is not a defined function). -/
def dynC3 : String → DynBehavior := fun code =>
  if code = snippetC3 then DynBehavior.runs [] "42"
  else DynBehavior.fails "FINAL_VAR is not defined"

/-! ## `extractFinal` on wrapped payloads (claims C10 and C4) -/

/-- `FINAL("…")`: the marker wrapping of a payload in double quotes. -/
def wrapDQ (payload : List Char) : List Char :=
  finalTag ++ '(' :: dq :: (payload ++ [dq, ')'])

/-- `n` spaces. -/
def spaces (n : Nat) : List Char := List.replicate n ' '

theorem dropPre_append (p l : List Char) : dropPre p (p ++ l) = some l := by
  induction p with
  | nil => rfl
  | cons c ps ih => simpa [dropPre] using ih

theorem dropPre_suffix : ∀ (p l r : List Char), dropPre p l = some r → r <:+ l := by
  intro p
  induction p with
  | nil =>
    intro l r h
    cases h
    exact List.suffix_refl _
  | cons c ps ih =>
    intro l r h
    cases l with
    | nil => exact Option.noConfusion h
    | cons a rest =>
      rw [dropPre] at h
      by_cases ha : a = c
      · rw [if_pos ha] at h
        exact (ih rest r h).trans (List.suffix_cons a rest)
      · rw [if_neg ha] at h
        exact Option.noConfusion h

theorem skipWs_suffix (l : List Char) : skipWs l <:+ l :=
  List.dropWhile_suffix _

theorem afterFinalOpen_suffix {l r : List Char} (h : afterFinalOpen l = some r) :
    r <:+ l := by
  unfold afterFinalOpen at h
  cases hd : dropPre finalTag l with
  | none =>
    rw [hd] at h
    dsimp only at h
    exact Option.noConfusion h
  | some r1 =>
    rw [hd] at h
    dsimp only at h
    cases hs : skipWs r1 with
    | nil =>
      rw [hs] at h
      exact Option.noConfusion h
    | cons c r2 =>
      rw [hs] at h
      dsimp only at h
      by_cases hc : c = '('
      · rw [if_pos hc] at h
        cases h
        calc skipWs r2 <:+ r2 := skipWs_suffix r2
          _ <:+ c :: r2 := List.suffix_cons c r2
          _ <:+ r1 := hs ▸ skipWs_suffix r1
          _ <:+ l := dropPre_suffix finalTag l r1 hd
      · rw [if_neg hc] at h
        exact Option.noConfusion h

theorem scanFor_none (m : List Char → Option (List Char)) :
    ∀ (l : List Char), (∀ l', l' <:+ l → m l' = none) → scanFor m l = none := by
  intro l
  induction l with
  | nil => intro h; exact h [] (List.suffix_refl _)
  | cons c rest ih =>
    intro h
    rw [scanFor, h (c :: rest) (List.suffix_refl _)]
    exact ih fun l' hl' => h l' (hl'.trans (List.suffix_cons c rest))

/-- Is there a position where three consecutive `q` start? -/
def hasTriple (q : Char) : List Char → Bool
  | [] => false
  | c :: rest => (c = q && rest.take 2 = [q, q]) || hasTriple q rest

theorem hasTriple_of_suffix {q : Char} :
    ∀ {l r : List Char}, r <:+ l → r.take 3 = [q, q, q] → hasTriple q l = true := by
  intro l
  induction l with
  | nil =>
    intro r hs ht
    rw [List.suffix_nil.mp hs] at ht
    exact List.noConfusion ht
  | cons c rest ih =>
    intro r hs ht
    rcases List.suffix_cons_iff.mp hs with h | h
    · subst h
      cases rest with
      | nil => simp [List.take] at ht
      | cons b rest2 =>
        cases rest2 with
        | nil => simp [List.take] at ht
        | cons b2 rest3 =>
          simp [List.take] at ht
          obtain ⟨h1, h2, h3⟩ := ht
          subst h1
          subst h2
          subst h3
          rw [hasTriple]
          simp [List.take]
    · rw [hasTriple, ih h ht]
      simp

theorem scanFor_tryTriple_none {q : Char} {l : List Char}
    (h : hasTriple q l = false) : scanFor (tryTriple q) l = none := by
  refine scanFor_none _ l fun l' hl' => ?_
  unfold tryTriple
  cases haf : afterFinalOpen l' with
  | none => rfl
  | some r =>
    dsimp only
    rw [if_neg]
    intro ht
    rw [hasTriple_of_suffix ((afterFinalOpen_suffix haf).trans hl') ht] at h
    exact Bool.noConfusion h

theorem scanFor_tryBacktick_none {l : List Char} (h : bt ∉ l) :
    scanFor tryBacktick l = none := by
  refine scanFor_none _ l fun l' hl' => ?_
  unfold tryBacktick
  cases haf : afterFinalOpen l' with
  | none => rfl
  | some r =>
    dsimp only
    cases r with
    | nil => rfl
    | cons c r2 =>
      dsimp only
      rw [if_neg]
      intro hc
      subst hc
      exact h (hl'.subset ((afterFinalOpen_suffix haf).subset (List.mem_cons_self _ _)))

theorem hasTriple_of_not_mem {q : Char} :
    ∀ {l : List Char}, q ∉ l → hasTriple q l = false := by
  intro l
  induction l with
  | nil => intro _; rfl
  | cons c rest ih =>
    intro h
    rw [hasTriple]
    have hc : ¬ (c = q) := fun he => h (he ▸ List.mem_cons_self c rest)
    simp [hc]
    exact ih fun hm => h (List.mem_cons_of_mem c hm)

theorem hasTriple_dq_tail {payload : List Char} (h : dq ∉ payload) :
    hasTriple dq (payload ++ [dq, ')']) = false := by
  induction payload with
  | nil => decide
  | cons c rest ih =>
    rw [List.cons_append, hasTriple]
    have hc : ¬ (c = dq) := fun he => h (he ▸ List.mem_cons_self c rest)
    simp [hc]
    exact ih fun hm => h (List.mem_cons_of_mem c hm)

theorem hasTriple_dq_wrap {payload : List Char} (h : dq ∉ payload) :
    hasTriple dq (wrapDQ payload) = false := by
  have htail := hasTriple_dq_tail h
  have htake : (payload ++ [dq, ')']).take 2 ≠ [dq, dq] := by
    cases payload with
    | nil => decide
    | cons c rest =>
      cases rest with
      | nil =>
        have hc : ¬ (c = dq) := fun he => h (he ▸ List.mem_cons_self c [])
        simp [List.take, hc]
      | cons b rest2 =>
        have hc : ¬ (c = dq) := fun he => h (he ▸ List.mem_cons_self c (b :: rest2))
        simp [List.take, hc]
    
  show hasTriple dq
    ('F' :: 'I' :: 'N' :: 'A' :: 'L' :: '(' :: dq :: (payload ++ [dq, ')'])) = false
  rw [hasTriple]
  simp only [show ('F' = dq) = False by simp [dq], Bool.false_and, Bool.false_or,
    decide_False]
  rw [hasTriple]
  simp only [show ('I' = dq) = False by simp [dq], decide_False, Bool.false_and,
    Bool.false_or]
  rw [hasTriple]
  simp only [show ('N' = dq) = False by simp [dq], decide_False, Bool.false_and,
    Bool.false_or]
  rw [hasTriple]
  simp only [show ('A' = dq) = False by simp [dq], decide_False, Bool.false_and,
    Bool.false_or]
  rw [hasTriple]
  simp only [show ('L' = dq) = False by simp [dq], decide_False, Bool.false_and,
    Bool.false_or]
  rw [hasTriple]
  simp only [show ('(' = dq) = False by simp [dq], decide_False, Bool.false_and,
    Bool.false_or]
  rw [hasTriple]
  simp only [decide_True, Bool.true_and]
  rw [htail]
  simp only [Bool.or_false]
  exact decide_eq_false htake

theorem quoteBody_append {payload : List Char}
    (h : ∀ c ∈ payload, c ≠ dq ∧ c ≠ bs) :
    quoteBody dq (payload ++ [dq, ')']) = some payload := by
  induction payload with
  | nil => decide
  | cons c rest ih =>
    obtain ⟨hc1, hc2⟩ := h c (List.mem_cons_self c rest)
    have ihr := ih fun x hx => h x (List.mem_cons_of_mem c hx)
    rw [List.cons_append, quoteBody.eq_def]
    dsimp only
    rw [if_neg hc1, if_neg hc2, ihr]

theorem afterFinalOpen_wrap (payload : List Char) :
    afterFinalOpen (wrapDQ payload) = some (dq :: (payload ++ [dq, ')'])) := by
  unfold afterFinalOpen wrapDQ
  rw [dropPre_append]
  dsimp only
  rw [show skipWs ('(' :: dq :: (payload ++ [dq, ')'])) =
    '(' :: dq :: (payload ++ [dq, ')']) from
    List.dropWhile_cons_of_neg (by decide)]
  dsimp only
  rw [if_pos rfl]
  rw [show skipWs (dq :: (payload ++ [dq, ')'])) = dq :: (payload ++ [dq, ')']) from
    List.dropWhile_cons_of_neg (by decide)]

theorem extractFinalL_wrap {payload : List Char}
    (h3dq : scanFor (tryTriple dq) (wrapDQ payload) = none)
    (h3sq : scanFor (tryTriple sq) (wrapDQ payload) = none)
    (hbt : scanFor tryBacktick (wrapDQ payload) = none)
    (hqb : quoteBody dq (payload ++ [dq, ')']) = some payload) :
    extractFinalL (wrapDQ payload) = some (unescapeL (trimL payload)) := by
  have htq : tryQuote dq (wrapDQ payload) = some payload := by
    unfold tryQuote
    rw [afterFinalOpen_wrap]
    dsimp only
    rw [if_pos rfl]
    exact hqb
  have hscan : scanFor (tryQuote dq) (wrapDQ payload) = some payload := by
    cases hw : wrapDQ payload with
    | nil => exact absurd hw (by simp [wrapDQ, finalTag])
    | cons c rest =>
      rw [hw] at htq
      rw [scanFor, htq]
  unfold extractFinalL firstCapture
  rw [h3dq]
  unfold firstCapture
  rw [h3sq]
  unfold firstCapture
  rw [hbt]
  unfold firstCapture
  rw [hscan]
  rfl

/-! ### Trimming of padded payloads -/

theorem allWs_spaces (n : Nat) : ∀ c ∈ spaces n, isWs c = true := by
  intro c hc
  rw [List.eq_of_mem_replicate hc]
  decide

theorem dropWhile_append_all {p : Char → Bool} :
    ∀ {w : List Char} (X : List Char), (∀ c ∈ w, p c = true) →
    (w ++ X).dropWhile p = X.dropWhile p := by
  intro w
  induction w with
  | nil => intro X _; rfl
  | cons a t ih =>
    intro X h
    rw [List.cons_append,
      List.dropWhile_cons_of_pos (h a (List.mem_cons_self a t))]
    exact ih X fun c hc => h c (List.mem_cons_of_mem a hc)

theorem dropWhile_append_ne {p : Char → Bool} :
    ∀ {l : List Char} (s : List Char), l.dropWhile p ≠ [] →
    (l ++ s).dropWhile p = l.dropWhile p ++ s := by
  intro l
  induction l with
  | nil => intro s h; exact absurd rfl h
  | cons a t ih =>
    intro s h
    by_cases ha : p a = true
    · rw [List.dropWhile_cons_of_pos ha] at h
      rw [List.cons_append, List.dropWhile_cons_of_pos ha,
        List.dropWhile_cons_of_pos ha]
      exact ih s h
    · rw [List.cons_append, List.dropWhile_cons_of_neg ha,
        List.dropWhile_cons_of_neg ha, List.cons_append]

theorem trimL_spaces_left (m : Nat) (l : List Char) :
    trimL (spaces m ++ l) = trimL l := by
  unfold trimL
  rw [dropWhile_append_all l (allWs_spaces m)]

theorem trimL_spaces_right (n : Nat) (l : List Char) :
    trimL (l ++ spaces n) = trimL l := by
  by_cases hd : l.dropWhile isWs = []
  · have hall : ∀ c ∈ l, isWs c = true := List.dropWhile_eq_nil_iff.mp hd
    have h1 : ∀ c ∈ l ++ spaces n, isWs c = true := by
      intro c hc
      rcases List.mem_append.mp hc with h | h
      · exact hall c h
      · exact allWs_spaces n c h
    rw [trimL_eq_nil_of_allWs h1, trimL_eq_nil_of_allWs hall]
  · unfold trimL
    rw [dropWhile_append_ne (spaces n) hd, List.reverse_append]
    rw [dropWhile_append_all _ (fun c hc => allWs_spaces n c (List.mem_reverse.mp hc))]

theorem trimL_pad (m n : Nat) (p : List Char) :
    trimL (spaces m ++ p ++ spaces n) = trimL p := by
  rw [trimL_spaces_right n (spaces m ++ p)]
  exact trimL_spaces_left m p

/-- Characters never occurring in `FINAL("payload")` when absent from the
payload. -/
theorem not_mem_wrapDQ {x : Char} {payload : List Char}
    (hx1 : x ≠ 'F') (hx2 : x ≠ 'I') (hx3 : x ≠ 'N') (hx4 : x ≠ 'A')
    (hx5 : x ≠ 'L') (hx6 : x ≠ '(') (hx7 : x ≠ dq) (hx8 : x ≠ ')')
    (hxp : x ∉ payload) : x ∉ wrapDQ payload := by
  intro hm
  unfold wrapDQ finalTag at hm
  rw [List.cons_append, List.cons_append, List.cons_append, List.cons_append,
    List.cons_append, List.nil_append] at hm
  rcases List.mem_cons.mp hm with h | hm
  · exact hx1 h
  rcases List.mem_cons.mp hm with h | hm
  · exact hx2 h
  rcases List.mem_cons.mp hm with h | hm
  · exact hx3 h
  rcases List.mem_cons.mp hm with h | hm
  · exact hx4 h
  rcases List.mem_cons.mp hm with h | hm
  · exact hx5 h
  rcases List.mem_cons.mp hm with h | hm
  · exact hx6 h
  rcases List.mem_cons.mp hm with h | hm
  · exact hx7 h
  rcases List.mem_append.mp hm with h | hm
  · exact hxp h
  rcases List.mem_cons.mp hm with h | hm
  · exact hx7 h
  rcases List.mem_cons.mp hm with h | hm
  · exact hx8 h
  cases hm

/-- `extractFinal` on a double-quote wrapped payload free of quotes,
backslashes and backticks: the capture is exactly the payload, trimmed
then unescaped. -/
theorem extractFinalL_wrapDQ_clean {payload : List Char}
    (h : ∀ c ∈ payload, c ≠ bs ∧ c ≠ dq ∧ c ≠ sq ∧ c ≠ bt) :
    extractFinalL (wrapDQ payload) = some (unescapeL (trimL payload)) := by
  have hdq : dq ∉ payload := fun hm => (h dq hm).2.1 rfl
  refine extractFinalL_wrap ?_ ?_ ?_ ?_
  · exact scanFor_tryTriple_none (hasTriple_dq_wrap hdq)
  · refine scanFor_tryTriple_none (hasTriple_of_not_mem ?_)
    exact not_mem_wrapDQ (by decide) (by decide) (by decide) (by decide)
      (by decide) (by decide) (by decide) (by decide)
      (fun hm => (h sq hm).2.2.1 rfl)
  · refine scanFor_tryBacktick_none ?_
    exact not_mem_wrapDQ (by decide) (by decide) (by decide) (by decide)
      (by decide) (by decide) (by decide) (by decide)
      (fun hm => (h bt hm).2.2.2 rfl)
  · exact quoteBody_append fun c hc => ⟨(h c hc).2.1, (h c hc).1⟩

/-! ## Round-trip through `unescapeString` (claim C4)

`escapeChar`/`escapeL` formalise the spec's phrase "the escaped form":
the standard JS escaping whose escape sequences (`\n \t \r \" \' \\`)
are exactly the ones `unescapeString` decodes, applied
character-by-character. -/

/-- The escaped form of one character. -/
def escapeChar (c : Char) : List Char :=
  if c = bs then [bs, bs]
  else if c = dq then [bs, dq]
  else if c = Char.ofNat 10 then [bs, 'n']
  else if c = Char.ofNat 9 then [bs, 't']
  else if c = Char.ofNat 13 then [bs, 'r']
  else if c = sq then [bs, sq]
  else [c]

/-- Flat-map of a per-character encoding. -/
def mapEsc (f : Char → List Char) : List Char → List Char
  | [] => []
  | c :: t => f c ++ mapEsc f t

/-- The escaped form of a string. -/
def escapeL (s : List Char) : List Char := mapEsc escapeChar s

/-- Encoding after the `\n` pass. -/
def escN (c : Char) : List Char :=
  if c = dq then [bs, dq]
  else if c = Char.ofNat 9 then [bs, 't']
  else if c = Char.ofNat 13 then [bs, 'r']
  else if c = sq then [bs, sq]
  else [c]

/-- Encoding after the `\t` pass. -/
def escT (c : Char) : List Char :=
  if c = dq then [bs, dq]
  else if c = Char.ofNat 13 then [bs, 'r']
  else if c = sq then [bs, sq]
  else [c]

/-- Encoding after the `\r` pass. -/
def escR (c : Char) : List Char :=
  if c = dq then [bs, dq]
  else if c = sq then [bs, sq]
  else [c]

/-- Encoding after the `\"` pass. -/
def escQ (c : Char) : List Char :=
  if c = sq then [bs, sq] else [c]

theorem replaceEsc_pair (a b r : Char) (L : List Char) :
    replaceEsc a b r (a :: b :: L) = r :: replaceEsc a b r L := by
  rw [replaceEsc, if_pos ⟨rfl, rfl⟩]

theorem replaceEsc_cons {a : Char} (b r c : Char) (L : List Char) (h : c ≠ a) :
    replaceEsc a b r (c :: L) = c :: replaceEsc a b r L := by
  cases L with
  | nil => rfl
  | cons d rest =>
    rw [replaceEsc, if_neg]
    intro hc
    exact h hc.1

/-- One `replace` pass on an encoded string: pairs `[bs, b]` become
`[r]`, everything else is untouched. -/
theorem replaceEsc_mapEsc (b r : Char) (f g : Char → List Char) :
    ∀ (s : List Char),
    (∀ c ∈ s, (∃ y, y ≠ bs ∧ f c = [bs, y]) ∨ (f c = [c] ∧ c ≠ bs)) →
    (∀ c ∈ s, (f c = [bs, b] → g c = [r]) ∧ (f c ≠ [bs, b] → g c = f c)) →
    replaceEsc bs b r (mapEsc f s) = mapEsc g s := by
  intro s
  induction s with
  | nil => intro _ _; rfl
  | cons c t ih =>
    intro hshape hg
    have ihr := ih (fun x hx => hshape x (List.mem_cons_of_mem c hx))
      (fun x hx => hg x (List.mem_cons_of_mem c hx))
    have hmap : mapEsc f (c :: t) = f c ++ mapEsc f t := rfl
    have hmapg : mapEsc g (c :: t) = g c ++ mapEsc g t := rfl
    rcases hshape c (List.mem_cons_self c t) with ⟨y, hy, hf⟩ | ⟨hf, hc⟩
    · by_cases hyb : y = b
      · subst hyb
        rw [hmap, hf, List.cons_append, List.cons_append, List.nil_append]
        rw [replaceEsc_pair, ihr, hmapg, (hg c (List.mem_cons_self c t)).1 hf]
        rfl
      · have hne : f c ≠ [bs, b] := by
          rw [hf]
          intro he
          injection he with h1 h2
          injection h2 with h3 h4
          exact hyb h3
        rw [hmap, hf, List.cons_append, List.cons_append, List.nil_append]
        rw [show replaceEsc bs b r (bs :: y :: mapEsc f t) =
            bs :: replaceEsc bs b r (y :: mapEsc f t) by
          rw [replaceEsc, if_neg]; intro hp; exact hyb hp.2]
        rw [replaceEsc_cons b r y (mapEsc f t) hy, ihr, hmapg,
          (hg c (List.mem_cons_self c t)).2 hne, hf]
        rfl
    · have hne : f c ≠ [bs, b] := by
        rw [hf]
        intro he
        injection he with h1 h2
        exact hc h1
      rw [hmap, hf, List.cons_append, List.nil_append]
      rw [replaceEsc_cons b r c (mapEsc f t) hc, ihr, hmapg,
        (hg c (List.mem_cons_self c t)).2 hne, hf]
      rfl

theorem pass_n {s : List Char} (hbs : bs ∉ s) :
    replaceEsc bs 'n' (Char.ofNat 10) (mapEsc escapeChar s) = mapEsc escN s := by
  refine replaceEsc_mapEsc _ _ _ _ s ?_ ?_
  · intro c hc
    have hcbs : c ≠ bs := fun he => hbs (he ▸ hc)
    unfold escapeChar
    rw [if_neg hcbs]
    split_ifs with h1 h2 h3 h4 h5
    · exact Or.inl ⟨dq, by decide, rfl⟩
    · exact Or.inl ⟨'n', by decide, rfl⟩
    · exact Or.inl ⟨'t', by decide, rfl⟩
    · exact Or.inl ⟨'r', by decide, rfl⟩
    · exact Or.inl ⟨sq, by decide, rfl⟩
    · exact Or.inr ⟨rfl, hcbs⟩
  · intro c hc
    have hcbs : c ≠ bs := fun he => hbs (he ▸ hc)
    constructor
    · intro he
      by_cases hS : c = Char.ofNat 10
      · subst hS; decide
      · exfalso
        unfold escapeChar at he
        rw [if_neg hcbs, if_neg hS] at he
        split_ifs at he
        all_goals first
          | exact absurd he (by decide)
          | (injection he with a b2; exact absurd a hcbs)
    · intro hne
      by_cases hS : c = Char.ofNat 10
      · subst hS; exact absurd (by decide) hne
      · unfold escN escapeChar
        rw [if_neg hcbs, if_neg hS]

theorem pass_t {s : List Char} (hbs : bs ∉ s) :
    replaceEsc bs 't' (Char.ofNat 9) (mapEsc escN s) = mapEsc escT s := by
  refine replaceEsc_mapEsc _ _ _ _ s ?_ ?_
  · intro c hc
    have hcbs : c ≠ bs := fun he => hbs (he ▸ hc)
    unfold escN
    split_ifs with h1 h2 h3 h4
    · exact Or.inl ⟨dq, by decide, rfl⟩
    · exact Or.inl ⟨'t', by decide, rfl⟩
    · exact Or.inl ⟨'r', by decide, rfl⟩
    · exact Or.inl ⟨sq, by decide, rfl⟩
    · exact Or.inr ⟨rfl, hcbs⟩
  · intro c hc
    have hcbs : c ≠ bs := fun he => hbs (he ▸ hc)
    constructor
    · intro he
      by_cases hS : c = Char.ofNat 9
      · subst hS; decide
      · exfalso
        unfold escN at he
        rw [if_neg hS] at he
        split_ifs at he
        all_goals first
          | exact absurd he (by decide)
          | (injection he with a b2; exact absurd a hcbs)
    · intro hne
      by_cases hS : c = Char.ofNat 9
      · subst hS; exact absurd (by decide) hne
      · unfold escT escN
        rw [if_neg hS]

theorem pass_r {s : List Char} (hbs : bs ∉ s) :
    replaceEsc bs 'r' (Char.ofNat 13) (mapEsc escT s) = mapEsc escR s := by
  refine replaceEsc_mapEsc _ _ _ _ s ?_ ?_
  · intro c hc
    have hcbs : c ≠ bs := fun he => hbs (he ▸ hc)
    unfold escT
    split_ifs with h1 h2 h3
    · exact Or.inl ⟨dq, by decide, rfl⟩
    · exact Or.inl ⟨'r', by decide, rfl⟩
    · exact Or.inl ⟨sq, by decide, rfl⟩
    · exact Or.inr ⟨rfl, hcbs⟩
  · intro c hc
    have hcbs : c ≠ bs := fun he => hbs (he ▸ hc)
    constructor
    · intro he
      by_cases hS : c = Char.ofNat 13
      · subst hS; decide
      · exfalso
        unfold escT at he
        rw [if_neg hS] at he
        split_ifs at he
        all_goals first
          | exact absurd he (by decide)
          | (injection he with a b2; exact absurd a hcbs)
    · intro hne
      by_cases hS : c = Char.ofNat 13
      · subst hS; exact absurd (by decide) hne
      · unfold escR escT
        rw [if_neg hS]

theorem pass_q {s : List Char} (hbs : bs ∉ s) :
    replaceEsc bs dq dq (mapEsc escR s) = mapEsc escQ s := by
  refine replaceEsc_mapEsc _ _ _ _ s ?_ ?_
  · intro c hc
    have hcbs : c ≠ bs := fun he => hbs (he ▸ hc)
    unfold escR
    split_ifs with h1 h2
    · exact Or.inl ⟨dq, by decide, rfl⟩
    · exact Or.inl ⟨sq, by decide, rfl⟩
    · exact Or.inr ⟨rfl, hcbs⟩
  · intro c hc
    have hcbs : c ≠ bs := fun he => hbs (he ▸ hc)
    constructor
    · intro he
      by_cases hS : c = dq
      · subst hS; decide
      · exfalso
        unfold escR at he
        rw [if_neg hS] at he
        split_ifs at he
        all_goals first
          | exact absurd he (by decide)
          | (injection he with a b2; exact absurd a hcbs)
    · intro hne
      by_cases hS : c = dq
      · subst hS; exact absurd (by decide) hne
      · unfold escQ escR
        rw [if_neg hS]

theorem pass_s {s : List Char} (hbs : bs ∉ s) :
    replaceEsc bs sq sq (mapEsc escQ s) = mapEsc (fun c => [c]) s := by
  refine replaceEsc_mapEsc _ _ _ _ s ?_ ?_
  · intro c hc
    have hcbs : c ≠ bs := fun he => hbs (he ▸ hc)
    unfold escQ
    split_ifs with h1
    · exact Or.inl ⟨sq, by decide, rfl⟩
    · exact Or.inr ⟨rfl, hcbs⟩
  · intro c hc
    have hcbs : c ≠ bs := fun he => hbs (he ▸ hc)
    constructor
    · intro he
      by_cases hS : c = sq
      · subst hS; decide
      · exfalso
        unfold escQ at he
        rw [if_neg hS] at he
        injection he with a b2; exact absurd a hcbs
    · intro hne
      by_cases hS : c = sq
      · subst hS; exact absurd (by decide) hne
      · unfold escQ
        rw [if_neg hS]

theorem mapEsc_single (s : List Char) : mapEsc (fun c => [c]) s = s := by
  induction s with
  | nil => rfl
  | cons c t ih => simpa [mapEsc] using ih

theorem replaceEsc_not_mem {a b r : Char} :
    ∀ {l : List Char}, a ∉ l → replaceEsc a b r l = l := by
  intro l
  induction l with
  | nil => intro _; rfl
  | cons c rest ih =>
    intro h
    have hc : c ≠ a := fun he => h (he ▸ List.mem_cons_self c rest)
    rw [replaceEsc_cons b r c rest hc]
    rw [ih fun hm => h (List.mem_cons_of_mem c hm)]

/-- Sequentially unescaping the escaped form of a backslash-free string
recovers it exactly. -/
theorem unescapeL_escapeL {s : List Char} (hbs : bs ∉ s) :
    unescapeL (escapeL s) = s := by
  unfold unescapeL escapeL
  rw [pass_n hbs, pass_t hbs, pass_r hbs, pass_q hbs, pass_s hbs,
    mapEsc_single, replaceEsc_not_mem hbs]

/-! ### The capture of `FINAL("…")` on an escaped payload -/

theorem quoteBody_escapeL : ∀ (s : List Char), bs ∉ s →
    quoteBody dq (escapeL s ++ [dq, ')']) = some (escapeL s) := by
  intro s
  induction s with
  | nil => intro _; decide
  | cons c t ih =>
    intro hbs
    have hcbs : c ≠ bs := fun he => hbs (he ▸ List.mem_cons_self c t)
    have ht : quoteBody dq (escapeL t ++ [dq, ')']) = some (escapeL t) :=
      ih fun hm => hbs (List.mem_cons_of_mem c hm)
    show quoteBody dq ((escapeChar c ++ escapeL t) ++ [dq, ')']) =
      some (escapeChar c ++ escapeL t)
    unfold escapeChar
    rw [if_neg hcbs]
    split_ifs with h1 h2 h3 h4 h5
    · show quoteBody dq (bs :: dq :: (escapeL t ++ [dq, ')'])) =
        some (bs :: dq :: escapeL t)
      rw [quoteBody.eq_def]
      dsimp only
      rw [if_neg (show ¬ (bs = dq) by decide), if_pos rfl]
      rw [if_neg (show ¬ (dq = Char.ofNat 10 ∨ dq = Char.ofNat 13) by decide), ht]
    · show quoteBody dq (bs :: 'n' :: (escapeL t ++ [dq, ')'])) =
        some (bs :: 'n' :: escapeL t)
      rw [quoteBody.eq_def]
      dsimp only
      rw [if_neg (show ¬ (bs = dq) by decide), if_pos rfl]
      rw [if_neg (show ¬ ('n' = Char.ofNat 10 ∨ 'n' = Char.ofNat 13) by decide), ht]
    · show quoteBody dq (bs :: 't' :: (escapeL t ++ [dq, ')'])) =
        some (bs :: 't' :: escapeL t)
      rw [quoteBody.eq_def]
      dsimp only
      rw [if_neg (show ¬ (bs = dq) by decide), if_pos rfl]
      rw [if_neg (show ¬ ('t' = Char.ofNat 10 ∨ 't' = Char.ofNat 13) by decide), ht]
    · show quoteBody dq (bs :: 'r' :: (escapeL t ++ [dq, ')'])) =
        some (bs :: 'r' :: escapeL t)
      rw [quoteBody.eq_def]
      dsimp only
      rw [if_neg (show ¬ (bs = dq) by decide), if_pos rfl]
      rw [if_neg (show ¬ ('r' = Char.ofNat 10 ∨ 'r' = Char.ofNat 13) by decide), ht]
    · show quoteBody dq (bs :: sq :: (escapeL t ++ [dq, ')'])) =
        some (bs :: sq :: escapeL t)
      rw [quoteBody.eq_def]
      dsimp only
      rw [if_neg (show ¬ (bs = dq) by decide), if_pos rfl]
      rw [if_neg (show ¬ (sq = Char.ofNat 10 ∨ sq = Char.ofNat 13) by decide), ht]
    · show quoteBody dq (c :: (escapeL t ++ [dq, ')'])) = some (c :: escapeL t)
      rw [quoteBody.eq_def]
      dsimp only
      rw [if_neg h1, if_neg hcbs, ht]

theorem hasTriple_cons_ne {q c : Char} (h : ¬ (c = q)) (l : List Char) :
    hasTriple q (c :: l) = hasTriple q l := by
  rw [hasTriple, decide_eq_false h, Bool.false_and, Bool.false_or]

theorem escapeL_no_triple_dq : ∀ {s : List Char}, bs ∉ s →
    hasTriple dq (escapeL s ++ [dq, ')']) = false ∧
    ¬ ((escapeL s ++ [dq, ')']).take 2 = [dq, dq]) := by
  intro s
  induction s with
  | nil => intro _; exact ⟨by decide, by decide⟩
  | cons c t ih =>
    intro hbs
    have hcbs : c ≠ bs := fun he => hbs (he ▸ List.mem_cons_self c t)
    obtain ⟨iht, ihtk⟩ := ih (fun hm => hbs (List.mem_cons_of_mem c hm))
    show hasTriple dq ((escapeChar c ++ escapeL t) ++ [dq, ')']) = false ∧
      ¬ (((escapeChar c ++ escapeL t) ++ [dq, ')']).take 2 = [dq, dq])
    unfold escapeChar
    rw [if_neg hcbs]
    split_ifs with h1 h2 h3 h4 h5
    · refine ⟨?_, ?_⟩
      · show hasTriple dq (bs :: dq :: (escapeL t ++ [dq, ')'])) = false
        simp only [hasTriple, iht, decide_eq_false ihtk,
          decide_eq_false (show ¬ (bs = dq) by decide),
          Bool.false_and, Bool.and_false, Bool.false_or, Bool.or_false]
      · intro h
        have h2 : ([bs, dq] : List Char) = [dq, dq] := h
        injection h2 with ha hb
        exact absurd ha (by decide)
    · refine ⟨?_, ?_⟩
      · show hasTriple dq (bs :: 'n' :: (escapeL t ++ [dq, ')'])) = false
        simp only [hasTriple, iht, decide_eq_false ihtk,
          decide_eq_false (show ¬ (bs = dq) by decide),
          decide_eq_false (show ¬ ('n' = dq) by decide),
          Bool.false_and, Bool.and_false, Bool.false_or, Bool.or_false]
      · intro h
        have h2 : ([bs, 'n'] : List Char) = [dq, dq] := h
        injection h2 with ha hb
        exact absurd ha (by decide)
    · refine ⟨?_, ?_⟩
      · show hasTriple dq (bs :: 't' :: (escapeL t ++ [dq, ')'])) = false
        simp only [hasTriple, iht, decide_eq_false ihtk,
          decide_eq_false (show ¬ (bs = dq) by decide),
          decide_eq_false (show ¬ ('t' = dq) by decide),
          Bool.false_and, Bool.and_false, Bool.false_or, Bool.or_false]
      · intro h
        have h2 : ([bs, 't'] : List Char) = [dq, dq] := h
        injection h2 with ha hb
        exact absurd ha (by decide)
    · refine ⟨?_, ?_⟩
      · show hasTriple dq (bs :: 'r' :: (escapeL t ++ [dq, ')'])) = false
        simp only [hasTriple, iht, decide_eq_false ihtk,
          decide_eq_false (show ¬ (bs = dq) by decide),
          decide_eq_false (show ¬ ('r' = dq) by decide),
          Bool.false_and, Bool.and_false, Bool.false_or, Bool.or_false]
      · intro h
        have h2 : ([bs, 'r'] : List Char) = [dq, dq] := h
        injection h2 with ha hb
        exact absurd ha (by decide)
    · refine ⟨?_, ?_⟩
      · show hasTriple dq (bs :: sq :: (escapeL t ++ [dq, ')'])) = false
        simp only [hasTriple, iht, decide_eq_false ihtk,
          decide_eq_false (show ¬ (bs = dq) by decide),
          decide_eq_false (show ¬ (sq = dq) by decide),
          Bool.false_and, Bool.and_false, Bool.false_or, Bool.or_false]
      · intro h
        have h2 : ([bs, sq] : List Char) = [dq, dq] := h
        injection h2 with ha hb
        exact absurd ha (by decide)
    · refine ⟨?_, ?_⟩
      · show hasTriple dq (c :: (escapeL t ++ [dq, ')'])) = false
        simp only [hasTriple, iht, decide_eq_false ihtk, decide_eq_false h1,
          Bool.false_and, Bool.and_false, Bool.false_or, Bool.or_false]
      · intro h
        have h2 : c :: List.take 1 (escapeL t ++ [dq, ')']) = [dq, dq] := h
        injection h2 with ha hb
        exact h1 ha

theorem escapeL_no_triple_sq : ∀ {s : List Char}, bs ∉ s →
    hasTriple sq (escapeL s ++ [dq, ')']) = false ∧
    ¬ ((escapeL s ++ [dq, ')']).take 2 = [sq, sq]) := by
  intro s
  induction s with
  | nil => intro _; exact ⟨by decide, by decide⟩
  | cons c t ih =>
    intro hbs
    have hcbs : c ≠ bs := fun he => hbs (he ▸ List.mem_cons_self c t)
    obtain ⟨iht, ihtk⟩ := ih (fun hm => hbs (List.mem_cons_of_mem c hm))
    show hasTriple sq ((escapeChar c ++ escapeL t) ++ [dq, ')']) = false ∧
      ¬ (((escapeChar c ++ escapeL t) ++ [dq, ')']).take 2 = [sq, sq])
    unfold escapeChar
    rw [if_neg hcbs]
    split_ifs with h1 h2 h3 h4 h5
    · refine ⟨?_, ?_⟩
      · show hasTriple sq (bs :: dq :: (escapeL t ++ [dq, ')'])) = false
        simp only [hasTriple, iht, decide_eq_false ihtk,
          decide_eq_false (show ¬ (bs = sq) by decide),
          decide_eq_false (show ¬ (dq = sq) by decide),
          Bool.false_and, Bool.and_false, Bool.false_or, Bool.or_false]
      · intro h
        have h2 : ([bs, dq] : List Char) = [sq, sq] := h
        injection h2 with ha hb
        exact absurd ha (by decide)
    · refine ⟨?_, ?_⟩
      · show hasTriple sq (bs :: 'n' :: (escapeL t ++ [dq, ')'])) = false
        simp only [hasTriple, iht, decide_eq_false ihtk,
          decide_eq_false (show ¬ (bs = sq) by decide),
          decide_eq_false (show ¬ ('n' = sq) by decide),
          Bool.false_and, Bool.and_false, Bool.false_or, Bool.or_false]
      · intro h
        have h2 : ([bs, 'n'] : List Char) = [sq, sq] := h
        injection h2 with ha hb
        exact absurd ha (by decide)
    · refine ⟨?_, ?_⟩
      · show hasTriple sq (bs :: 't' :: (escapeL t ++ [dq, ')'])) = false
        simp only [hasTriple, iht, decide_eq_false ihtk,
          decide_eq_false (show ¬ (bs = sq) by decide),
          decide_eq_false (show ¬ ('t' = sq) by decide),
          Bool.false_and, Bool.and_false, Bool.false_or, Bool.or_false]
      · intro h
        have h2 : ([bs, 't'] : List Char) = [sq, sq] := h
        injection h2 with ha hb
        exact absurd ha (by decide)
    · refine ⟨?_, ?_⟩
      · show hasTriple sq (bs :: 'r' :: (escapeL t ++ [dq, ')'])) = false
        simp only [hasTriple, iht, decide_eq_false ihtk,
          decide_eq_false (show ¬ (bs = sq) by decide),
          decide_eq_false (show ¬ ('r' = sq) by decide),
          Bool.false_and, Bool.and_false, Bool.false_or, Bool.or_false]
      · intro h
        have h2 : ([bs, 'r'] : List Char) = [sq, sq] := h
        injection h2 with ha hb
        exact absurd ha (by decide)
    · refine ⟨?_, ?_⟩
      · show hasTriple sq (bs :: sq :: (escapeL t ++ [dq, ')'])) = false
        simp only [hasTriple, iht, decide_eq_false ihtk,
          decide_eq_false (show ¬ (bs = sq) by decide),
          Bool.false_and, Bool.and_false, Bool.false_or, Bool.or_false]
      · intro h
        have h2 : ([bs, sq] : List Char) = [sq, sq] := h
        injection h2 with ha hb
        exact absurd ha (by decide)
    · refine ⟨?_, ?_⟩
      · show hasTriple sq (c :: (escapeL t ++ [dq, ')'])) = false
        simp only [hasTriple, iht, decide_eq_false ihtk, decide_eq_false h5,
          Bool.false_and, Bool.and_false, Bool.false_or, Bool.or_false]
      · intro h
        have h2 : c :: List.take 1 (escapeL t ++ [dq, ')']) = [sq, sq] := h
        injection h2 with ha hb
        exact h5 ha

theorem hasTriple_wrap_escapeL_dq {s : List Char} (hbs : bs ∉ s) :
    hasTriple dq (wrapDQ (escapeL s)) = false := by
  obtain ⟨ht, htk⟩ := escapeL_no_triple_dq hbs
  show hasTriple dq
    ('F' :: 'I' :: 'N' :: 'A' :: 'L' :: '(' :: dq :: (escapeL s ++ [dq, ')'])) = false
  rw [hasTriple_cons_ne (by decide), hasTriple_cons_ne (by decide),
    hasTriple_cons_ne (by decide), hasTriple_cons_ne (by decide),
    hasTriple_cons_ne (by decide), hasTriple_cons_ne (by decide)]
  rw [hasTriple, ht, decide_eq_false htk]
  decide

theorem hasTriple_wrap_escapeL_sq {s : List Char} (hbs : bs ∉ s) :
    hasTriple sq (wrapDQ (escapeL s)) = false := by
  obtain ⟨ht, htk⟩ := escapeL_no_triple_sq hbs
  show hasTriple sq
    ('F' :: 'I' :: 'N' :: 'A' :: 'L' :: '(' :: dq :: (escapeL s ++ [dq, ')'])) = false
  rw [hasTriple_cons_ne (by decide), hasTriple_cons_ne (by decide),
    hasTriple_cons_ne (by decide), hasTriple_cons_ne (by decide),
    hasTriple_cons_ne (by decide), hasTriple_cons_ne (by decide),
    hasTriple_cons_ne (by decide)]
  exact ht

theorem bt_not_mem_escapeL : ∀ {s : List Char}, bt ∉ s → bt ∉ escapeL s := by
  intro s
  induction s with
  | nil => intro _ h; exact absurd h (List.not_mem_nil bt)
  | cons c t ih =>
    intro hbt h
    have hct : bt ∉ escapeL t := ih fun hm => hbt (List.mem_cons_of_mem c hm)
    have hcc : c ≠ bt := fun he => hbt (he ▸ List.mem_cons_self c t)
    rw [show escapeL (c :: t) = escapeChar c ++ escapeL t from rfl] at h
    rcases List.mem_append.mp h with h | h
    · unfold escapeChar at h
      split_ifs at h with h1 h2 h3 h4 h5 h6
      · exact absurd h (by decide)
      · exact absurd h (by decide)
      · exact absurd h (by decide)
      · exact absurd h (by decide)
      · exact absurd h (by decide)
      · exact absurd h (by decide)
      · rcases List.mem_cons.mp h with h | h
        · exact hcc h.symm
        · exact absurd h (List.not_mem_nil bt)
    · exact hct h

/-! ### Trimming an escaped payload with non-whitespace ends -/

theorem dropWhile_isWs_id :
    ∀ {l : List Char}, (∀ c, l.head? = some c → isWs c = false) →
    l.dropWhile isWs = l := by
  intro l h
  cases l with
  | nil => rfl
  | cons a t =>
    have ha : isWs a = false := h a rfl
    exact List.dropWhile_cons_of_neg (by rw [ha]; exact Bool.false_ne_true)

theorem trimL_eq_self {l : List Char}
    (hh : ∀ c, l.head? = some c → isWs c = false)
    (hl : ∀ c, l.getLast? = some c → isWs c = false) :
    trimL l = l := by
  unfold trimL
  rw [dropWhile_isWs_id hh]
  have h2 : ∀ c, l.reverse.head? = some c → isWs c = false := by
    intro c hc
    rw [List.head?_reverse] at hc
    exact hl c hc
  rw [dropWhile_isWs_id h2, List.reverse_reverse]

theorem mapEsc_append (f : Char → List Char) :
    ∀ (a b : List Char), mapEsc f (a ++ b) = mapEsc f a ++ mapEsc f b := by
  intro a b
  induction a with
  | nil => rfl
  | cons c t ih => simp [mapEsc, ih, List.append_assoc]

theorem escapeL_head_not_ws {s : List Char}
    (hh : ∀ c, s.head? = some c → isWs c = false) :
    ∀ d, (escapeL s).head? = some d → isWs d = false := by
  intro d hd
  cases s with
  | nil => exact Option.noConfusion hd
  | cons c t =>
    have hc : isWs c = false := hh c rfl
    rw [show escapeL (c :: t) = escapeChar c ++ escapeL t from rfl] at hd
    revert hd
    unfold escapeChar
    split_ifs with h1 h2 h3 h4 h5 h6
    · intro hd
      have hd2 : some bs = some d := hd
      injection hd2 with h
      rw [← h]; decide
    · intro hd
      have hd2 : some bs = some d := hd
      injection hd2 with h
      rw [← h]; decide
    · intro hd
      have hd2 : some bs = some d := hd
      injection hd2 with h
      rw [← h]; decide
    · intro hd
      have hd2 : some bs = some d := hd
      injection hd2 with h
      rw [← h]; decide
    · intro hd
      have hd2 : some bs = some d := hd
      injection hd2 with h
      rw [← h]; decide
    · intro hd
      have hd2 : some bs = some d := hd
      injection hd2 with h
      rw [← h]; decide
    · intro hd
      have hd2 : some c = some d := hd
      injection hd2 with h
      rw [← h]; exact hc

theorem escapeL_last_not_ws {s : List Char}
    (hl : ∀ c, s.getLast? = some c → isWs c = false) :
    ∀ d, (escapeL s).getLast? = some d → isWs d = false := by
  rcases List.eq_nil_or_concat s with rfl | ⟨t, c, rfl⟩
  · intro d hd
    exact Option.noConfusion hd
  · intro d hd
    rw [List.concat_eq_append] at hl hd
    have hc : isWs c = false := hl c (List.getLast?_concat t)
    have hesc : escapeL (t ++ [c]) = escapeL t ++ escapeChar c := by
      show mapEsc escapeChar (t ++ [c]) = mapEsc escapeChar t ++ escapeChar c
      rw [mapEsc_append]
      rw [show mapEsc escapeChar [c] = escapeChar c ++ mapEsc escapeChar []
        from rfl]
      rw [show mapEsc escapeChar ([] : List Char) = [] from rfl, List.append_nil]
    rw [hesc] at hd
    have hne : escapeChar c ≠ [] := by
      unfold escapeChar
      split_ifs <;> simp
    rw [List.getLast?_append_of_ne_nil _ hne] at hd
    revert hd
    unfold escapeChar
    split_ifs with h1 h2 h3 h4 h5 h6
    · intro hd
      have hd2 : some bs = some d := hd
      injection hd2 with h
      rw [← h]; decide
    · intro hd
      have hd2 : some dq = some d := hd
      injection hd2 with h
      rw [← h]; decide
    · intro hd
      have hd2 : some 'n' = some d := hd
      injection hd2 with h
      rw [← h]; decide
    · intro hd
      have hd2 : some 't' = some d := hd
      injection hd2 with h
      rw [← h]; decide
    · intro hd
      have hd2 : some 'r' = some d := hd
      injection hd2 with h
      rw [← h]; decide
    · intro hd
      have hd2 : some sq = some d := hd
      injection hd2 with h
      rw [← h]; decide
    · intro hd
      have hd2 : some c = some d := hd
      injection hd2 with h
      rw [← h]; exact hc

/-- Round-trip of `escapeL` through the matcher and `unescapeL` for payloads
without a backslash or backtick and with non-whitespace first and last
characters. -/
theorem extractFinalL_escapeL {s : List Char} (hbs : bs ∉ s) (hb2 : bt ∉ s)
    (hh : ∀ c, s.head? = some c → isWs c = false)
    (hl : ∀ c, s.getLast? = some c → isWs c = false) :
    extractFinalL (wrapDQ (escapeL s)) = some s := by
  have htrim : trimL (escapeL s) = escapeL s :=
    trimL_eq_self (escapeL_head_not_ws hh) (escapeL_last_not_ws hl)
  rw [extractFinalL_wrap
    (scanFor_tryTriple_none (hasTriple_wrap_escapeL_dq hbs))
    (scanFor_tryTriple_none (hasTriple_wrap_escapeL_sq hbs))
    (scanFor_tryBacktick_none (not_mem_wrapDQ (by decide) (by decide) (by decide)
      (by decide) (by decide) (by decide) (by decide) (by decide)
      (bt_not_mem_escapeL hb2)))
    (quoteBody_escapeL s hbs)]
  rw [htrim, unescapeL_escapeL hbs]

end RLMSpec

open RLMSpec

/-! # The claims -/

/-- Claim C9: if a model response has no fenced code block and its
trimmed text is empty, `SandboxExecutor.execute` returns
`{output: "", success: true}` without running the static policy check
(the result is independent of the policy checker), and the sandbox
environment is returned unchanged — no field added, removed or
modified, and no recursive call or provider dispatch is made. -/
theorem claim_C9 (checker : String → Option String) (run : RunFn)
    (dyn : String → DynBehavior) (cfg : Cfg) (depth : Nat)
    (response : String) (env : SandboxEnvironment) (clk : Nat) (acc : RunAcc)
    (h : trimL response.toList = []) :
    sandboxExecP checker run dyn cfg depth response env clk acc =
      SandboxOut.ok "" env clk acc := by
  have hws := allWs_of_trimL_eq_nil h
  have hblk : extractFirstCodeBlock response = none := by
    unfold extractFirstCodeBlock
    rw [extractCodeBlocksL_eq_nil_of_allWs hws]
    rfl
  unfold sandboxExecP codeOf
  rw [hblk, h]
  rfl

/-- Witness for C9 at a concrete whitespace-only response. -/
theorem claim_C9_witness :
    sandboxExecP containsForbiddenPattern
      (fun _ _ _ _ clk => ⟨Outcome.err RErr.noGas, clk, zeroAcc⟩)
      (fun _ => DynBehavior.runs [] "") ⟨"m", "m", 3, 3, 10, none⟩ 0
      "  \n  " ⟨"ctx", "q", []⟩ 7 zeroAcc =
      SandboxOut.ok "" ⟨"ctx", "q", []⟩ 7 zeroAcc :=
  claim_C9 containsForbiddenPattern _ _ _ 0 "  \n  " ⟨"ctx", "q", []⟩ 7 zeroAcc
    (by decide)

/-- Claim C2: when a cost budget is configured, the budget check happens
before every model dispatch — (first conjunct) if spend already equals
or exceeds the ceiling at the start of an iteration, the run fails with
the budget-exceeded error, the clock is unchanged and no counters move
(no call dispatched); a dispatched call always completes and its full
cost is recorded even past the ceiling.  (Second conjunct) a run with
ceiling `b` whose first call costs more than `b` (and whose snippets
make no recursive calls and whose first response is not terminal) fails
with `BudgetExceeded` with exactly one call dispatched: the failure
comes after the first call and before a second call is attempted. -/
theorem claim_C2 :
    (∀ (run : RunFn) (prov : Nat → ProvResp) (dyn : String → DynBehavior)
        (cfg : Cfg) (depth r : Nat) (msgs : List Msg) (env : SandboxEnvironment)
        (clk : Nat) (acc : RunAcc) (b : ℚ),
        cfg.costBudget = some b → b ≤ acc.cost →
        iterLoop run prov dyn cfg depth (r + 1) msgs env clk acc =
          ⟨Outcome.err (RErr.budgetErr acc.cost b), clk, setIter cfg r acc⟩) ∧
    (∀ (prov : Nat → ProvResp) (dyn : String → DynBehavior) (gas : Nat)
        (cfg : Cfg) (q c : String) (b : ℚ),
        cfg.costBudget = some b → 0 < b →
        0 < cfg.maxDepth → 2 ≤ cfg.maxIterations →
        isFinal (prov 0).content = false →
        b < calculateCost (dispatchModel cfg 0)
              (prov 0).inputTokens (prov 0).outputTokens →
        (∀ code, noRecCalls (dyn code)) →
        ∃ spent,
          (runRoot prov dyn (gas + 1) cfg q c).out =
            Outcome.err (RErr.budgetErr spent b) ∧
          spent = calculateCost (dispatchModel cfg 0)
            (prov 0).inputTokens (prov 0).outputTokens ∧
          (runRoot prov dyn (gas + 1) cfg q c).acc.llmCalls = 1) := by
  constructor
  · intro run prov dyn cfg depth r msgs env clk acc b hcb hle
    have hb : budgetHit cfg (setIter cfg r acc) = some b := by
      simp [budgetHit, setIter, hcb, hle]
    exact iterLoop_budget run prov dyn cfg depth r msgs env clk acc b hb
  · intro prov dyn gas cfg q c b hcb hpos hdep hit hfin hlt hnc
    obtain ⟨m2, hm2⟩ : ∃ m2, cfg.maxIterations = m2 + 2 :=
      ⟨cfg.maxIterations - 2, by omega⟩
    unfold runRoot
    simp only [runRLM]
    rw [if_neg (by omega), hm2]
    have hb1 : budgetHit cfg (setIter cfg (m2 + 1) zeroAcc) = none := by
      simp [budgetHit, setIter, zeroAcc, hcb]
      exact hpos
    have ht1 : terminalGate (prov 0).content ⟨c, q, []⟩ = none := by
      simp [terminalGate, hfin]
    rw [iterLoop_step _ _ _ _ _ _ _ _ _ _ hb1 ht1]
    rcases sandboxExecP_noCalls containsForbiddenPattern _ dyn cfg 0
        (prov 0).content ⟨c, q, []⟩ (0 + 1)
        (markSandboxed (prov 0).content
          (dispatchAcc cfg 0 (prov 0) (setIter cfg (m2 + 1) zeroAcc)))
        (hnc _) with ⟨out, heq⟩ | ⟨m, heq⟩ <;> rw [heq] <;> dsimp only
    · have hb2 : budgetHit cfg (setIter cfg m2 (markSandboxed (prov 0).content
          (dispatchAcc cfg 0 (prov 0) (setIter cfg (m2 + 1) zeroAcc)))) = some b := by
        simp [budgetHit, setIter, markSandboxed, dispatchAcc, zeroAcc, hcb]
        exact le_of_lt hlt
      rw [iterLoop_budget _ _ _ _ _ _ _ _ _ _ b hb2]
      refine ⟨_, rfl, ?_, ?_⟩
      · simp [setIter, markSandboxed, dispatchAcc, zeroAcc]
      · rfl
    · have hb2 : budgetHit cfg (setIter cfg m2 (bumpRepl (markSandboxed (prov 0).content
          (dispatchAcc cfg 0 (prov 0) (setIter cfg (m2 + 1) zeroAcc))))) = some b := by
        simp [budgetHit, setIter, bumpRepl, markSandboxed, dispatchAcc, zeroAcc, hcb]
        exact le_of_lt hlt
      rw [iterLoop_budget _ _ _ _ _ _ _ _ _ _ b hb2]
      refine ⟨_, rfl, ?_, ?_⟩
      · simp [setIter, bumpRepl, markSandboxed, dispatchAcc, zeroAcc]
      · rfl

/-- Witness for C2 at a concrete over-budget run: ceiling 1/1000000,
first call to the default-priced model with one input token costs
5/2000000 > 1/1000000; the run fails with BudgetExceeded after exactly
one call. -/
theorem claim_C2_witness :
    ∃ spent,
      (runRoot (fun _ => ⟨"keep exploring", 1, 0⟩) (fun _ => DynBehavior.runs [] "")
        1 ⟨"m", "m", 3, 2, 100, some (1 / 1000000)⟩ "q" "c").out =
        Outcome.err (RErr.budgetErr spent (1 / 1000000)) ∧
      spent = calculateCost (dispatchModel ⟨"m", "m", 3, 2, 100, some (1 / 1000000)⟩ 0) 1 0 ∧
      (runRoot (fun _ => ⟨"keep exploring", 1, 0⟩) (fun _ => DynBehavior.runs [] "")
        1 ⟨"m", "m", 3, 2, 100, some (1 / 1000000)⟩ "q" "c").acc.llmCalls = 1 :=
  claim_C2.2 (fun _ => ⟨"keep exploring", 1, 0⟩) (fun _ => DynBehavior.runs [] "")
    0 ⟨"m", "m", 3, 2, 100, some (1 / 1000000)⟩ "q" "c" (1 / 1000000)
    rfl (by norm_num) (by decide) (by decide) (by decide)
    (by
      have hm : MODEL_PRICING
          (dispatchModel ⟨"m", "m", 3, 2, 100, some (1 / 1000000)⟩ 0) = none := by
        decide
      unfold calculateCost
      rw [hm]
      norm_num)
    (fun _ => rfl)

/-- Claim C6: a recoverable snippet fault — a static policy rejection
naming the denylisted token (first conjunct) or a runtime execution
error (second conjunct) — does not end the run: the fault text is
wrapped in the error prompt and appended as the next user message, the
loop proceeds to the next iteration, and `replErrors` grows by exactly
one. -/
theorem claim_C6 :
    (∀ (run : RunFn) (prov : Nat → ProvResp) (dyn : String → DynBehavior)
        (cfg : Cfg) (depth r : Nat) (msgs : List Msg) (env : SandboxEnvironment)
        (clk : Nat) (acc : RunAcc) (tok : String),
        budgetHit cfg (setIter cfg r acc) = none →
        terminalGate (prov clk).content env = none →
        containsForbiddenPattern (codeOf (prov clk).content) = some tok →
        iterLoop run prov dyn cfg depth (r + 1) msgs env clk acc =
          iterLoop run prov dyn cfg depth r
            (msgs ++ [⟨Role.assistant, (prov clk).content⟩,
                      ⟨Role.user, buildErrorPrompt (forbiddenMsg tok)⟩])
            env (clk + 1)
            (bumpRepl (markSandboxed (prov clk).content
              (dispatchAcc cfg depth (prov clk) (setIter cfg r acc)))) ∧
        (bumpRepl (markSandboxed (prov clk).content
            (dispatchAcc cfg depth (prov clk) (setIter cfg r acc)))).replErrors =
          acc.replErrors + 1) ∧
    (∀ (run : RunFn) (prov : Nat → ProvResp) (dyn : String → DynBehavior)
        (cfg : Cfg) (depth r : Nat) (msgs : List Msg) (env : SandboxEnvironment)
        (clk : Nat) (acc : RunAcc) (m : String),
        budgetHit cfg (setIter cfg r acc) = none →
        terminalGate (prov clk).content env = none →
        codeOf (prov clk).content ≠ "" →
        containsForbiddenPattern (codeOf (prov clk).content) = none →
        dyn (codeOf (prov clk).content) = DynBehavior.fails m →
        iterLoop run prov dyn cfg depth (r + 1) msgs env clk acc =
          iterLoop run prov dyn cfg depth r
            (msgs ++ [⟨Role.assistant, (prov clk).content⟩,
                      ⟨Role.user, buildErrorPrompt ("Execution error: " ++ m)⟩])
            env (clk + 1)
            (bumpRepl (markSandboxed (prov clk).content
              (dispatchAcc cfg depth (prov clk) (setIter cfg r acc)))) ∧
        (bumpRepl (markSandboxed (prov clk).content
            (dispatchAcc cfg depth (prov clk) (setIter cfg r acc)))).replErrors =
          acc.replErrors + 1) := by
  constructor
  · intro run prov dyn cfg depth r msgs env clk acc tok hb ht hcheck
    have hne : codeOf (prov clk).content ≠ "" := by
      intro he
      rw [he] at hcheck
      rw [show containsForbiddenPattern "" = none by decide] at hcheck
      exact Option.noConfusion hcheck
    refine ⟨?_, rfl⟩
    rw [iterLoop_step _ _ _ _ _ _ _ _ _ _ hb ht]
    unfold sandboxExecP
    rw [if_neg hne, hcheck]
  · intro run prov dyn cfg depth r msgs env clk acc m hb ht hne hcheck hdyn
    refine ⟨?_, rfl⟩
    rw [iterLoop_step _ _ _ _ _ _ _ _ _ _ hb ht]
    unfold sandboxExecP
    rw [if_neg hne, hcheck, hdyn]

/-- Witness for C6: a snippet touching `process` is rejected naming
"process"; a snippet whose execution fails is folded back; both continue
the loop with `replErrors` incremented. -/
theorem claim_C6_witness :
    (iterLoop (fun _ _ _ _ clk => ⟨Outcome.err RErr.noGas, clk, zeroAcc⟩)
        (fun _ => ⟨"```js\nprocess.exit()\n```", 3, 2⟩)
        (fun _ => DynBehavior.runs [] "") ⟨"m", "m", 3, 5, 100, none⟩ 0
        2 [] ⟨"c", "q", []⟩ 0 zeroAcc =
      iterLoop (fun _ _ _ _ clk => ⟨Outcome.err RErr.noGas, clk, zeroAcc⟩)
        (fun _ => ⟨"```js\nprocess.exit()\n```", 3, 2⟩)
        (fun _ => DynBehavior.runs [] "") ⟨"m", "m", 3, 5, 100, none⟩ 0
        1 ([] ++ [⟨Role.assistant, "```js\nprocess.exit()\n```"⟩,
                  ⟨Role.user, buildErrorPrompt (forbiddenMsg "process")⟩])
        ⟨"c", "q", []⟩ 1
        (bumpRepl (markSandboxed "```js\nprocess.exit()\n```"
          (dispatchAcc ⟨"m", "m", 3, 5, 100, none⟩ 0 ⟨"```js\nprocess.exit()\n```", 3, 2⟩
            (setIter ⟨"m", "m", 3, 5, 100, none⟩ 2 zeroAcc)))) ∧
      (bumpRepl (markSandboxed "```js\nprocess.exit()\n```"
          (dispatchAcc ⟨"m", "m", 3, 5, 100, none⟩ 0 ⟨"```js\nprocess.exit()\n```", 3, 2⟩
            (setIter ⟨"m", "m", 3, 5, 100, none⟩ 2 zeroAcc)))).replErrors =
        zeroAcc.replErrors + 1) ∧
    (iterLoop (fun _ _ _ _ clk => ⟨Outcome.err RErr.noGas, clk, zeroAcc⟩)
        (fun _ => ⟨"```js\ncontext.slice(0)\n```", 3, 2⟩)
        (fun _ => DynBehavior.fails "boom") ⟨"m", "m", 3, 5, 100, none⟩ 0
        2 [] ⟨"c", "q", []⟩ 0 zeroAcc =
      iterLoop (fun _ _ _ _ clk => ⟨Outcome.err RErr.noGas, clk, zeroAcc⟩)
        (fun _ => ⟨"```js\ncontext.slice(0)\n```", 3, 2⟩)
        (fun _ => DynBehavior.fails "boom") ⟨"m", "m", 3, 5, 100, none⟩ 0
        1 ([] ++ [⟨Role.assistant, "```js\ncontext.slice(0)\n```"⟩,
                  ⟨Role.user, buildErrorPrompt ("Execution error: " ++ "boom")⟩])
        ⟨"c", "q", []⟩ 1
        (bumpRepl (markSandboxed "```js\ncontext.slice(0)\n```"
          (dispatchAcc ⟨"m", "m", 3, 5, 100, none⟩ 0 ⟨"```js\ncontext.slice(0)\n```", 3, 2⟩
            (setIter ⟨"m", "m", 3, 5, 100, none⟩ 2 zeroAcc)))) ∧
      (bumpRepl (markSandboxed "```js\ncontext.slice(0)\n```"
          (dispatchAcc ⟨"m", "m", 3, 5, 100, none⟩ 0 ⟨"```js\ncontext.slice(0)\n```", 3, 2⟩
            (setIter ⟨"m", "m", 3, 5, 100, none⟩ 2 zeroAcc)))).replErrors =
        zeroAcc.replErrors + 1) :=
  ⟨claim_C6.1 _ _ _ _ 0 1 [] _ 0 zeroAcc "process" (by decide) (by decide) (by decide),
   claim_C6.2 _ _ _ _ 0 1 [] _ 0 zeroAcc "boom" (by decide) (by decide)
     (by decide) (by decide) rfl⟩

/-- Claim C1: (i) a run instantiated at or past `maxDepth` fails with the
depth error before anything else — the clock is unchanged and all
counters are zero, so no model call is dispatched; (ii) every child a
run spawns has depth exactly `parent depth + 1` (and the root entry
point `runRoot` fixes the root depth to 0 by definition); (iii) every
provider dispatch in a run's whole subtree happens at a depth strictly
below `maxDepth`, so no model call is dispatched once `depth ≥
maxDepth`; (iv) a recursive call issued from a snippet when
`depth + 1 ≥ maxDepth` returns the explanatory depth-limit string to the
calling snippet, leaves clock and counters untouched (no model call),
and is an `ok` outcome — it does not fail the parent run. -/
theorem claim_C1 :
    (∀ (prov : Nat → ProvResp) (dyn : String → DynBehavior) (gas : Nat)
        (cfg : Cfg) (depth : Nat) (q c : String) (clk : Nat),
        cfg.maxDepth ≤ depth →
        runRLM prov dyn (gas + 1) cfg depth q c clk =
          ⟨Outcome.err (RErr.depthErr cfg.maxDepth), clk, zeroAcc⟩) ∧
    (∀ (prov : Nat → ProvResp) (dyn : String → DynBehavior) (gas : Nat)
        (cfg : Cfg) (depth : Nat) (q c : String) (clk : Nat),
        ∀ d ∈ (runRLM prov dyn gas cfg depth q c clk).acc.spawnedDepths,
          d = depth + 1) ∧
    (∀ (prov : Nat → ProvResp) (dyn : String → DynBehavior) (gas : Nat)
        (cfg : Cfg) (depth : Nat) (q c : String) (clk : Nat),
        ∀ x ∈ (runRLM prov dyn gas cfg depth q c clk).acc.callDepths,
          x < cfg.maxDepth) ∧
    (∀ (run : RunFn) (cfg : Cfg) (depth : Nat) (q c : String) (clk : Nat)
        (acc : RunAcc),
        cfg.maxDepth ≤ depth + 1 →
        recCallStep run cfg depth q c clk acc =
          CallOut.ok (depthLimitMsg cfg.maxDepth) clk acc) := by
  refine ⟨?_, ?_, ?_, ?_⟩
  · intro prov dyn gas cfg depth q c clk h
    rw [runRLM, if_pos h]
  · intro prov dyn gas cfg depth q c clk
    exact runRLM_spawned prov dyn gas cfg depth q c clk
  · intro prov dyn gas cfg depth q c clk
    exact runRLM_callDepths prov dyn gas cfg depth q c clk
  · intro run cfg depth q c clk acc h
    simp only [recCallStep]
    rw [if_pos h]

/-- Witness for C1: a run instantiated at depth 5 with `maxDepth` 3
fails with the depth error without dispatching; a recursive call at
depth 2 with `maxDepth` 3 returns the explanatory string unchanged. -/
theorem claim_C1_witness :
    runRLM (fun _ => ⟨"r", 1, 1⟩) (fun _ => DynBehavior.runs [] "") 1
        ⟨"m", "m", 3, 4, 100, none⟩ 5 "q" "c" 7 =
      ⟨Outcome.err (RErr.depthErr 3), 7, zeroAcc⟩ ∧
    recCallStep (fun _ _ _ _ clk => ⟨Outcome.err RErr.noGas, clk, zeroAcc⟩)
        ⟨"m", "m", 3, 4, 100, none⟩ 2 "sq" "sc" 4 zeroAcc =
      CallOut.ok (depthLimitMsg 3) 4 zeroAcc :=
  ⟨claim_C1.1 (fun _ => ⟨"r", 1, 1⟩) (fun _ => DynBehavior.runs [] "") 0
      ⟨"m", "m", 3, 4, 100, none⟩ 5 "q" "c" 7 (by decide),
   claim_C1.2.2.2 (fun _ _ _ _ clk => ⟨Outcome.err RErr.noGas, clk, zeroAcc⟩)
      ⟨"m", "m", 3, 4, 100, none⟩ 2 "sq" "sc" 4 zeroAcc (by decide)⟩

/-- Counterexample to C5 as stated: in the merge scenario the root
completes having spawned and successfully merged one child that ran at
depth 1 (the subtree dispatch depths are `[0, 1, 0]`), yet the root's
reported `maxDepthReached` is 0 — child statistics are *not* merged "by
max for depth-reached"; the getter always reports the run's own depth
and the merge code never touches a depth field. -/
theorem claim_C5_cex :
    (runRoot provC5 dynC5 5 cfgC5 "Q" "CTX").out =
      Outcome.ok ⟨"root", none, none⟩ ∧
    (runRoot provC5 dynC5 5 cfgC5 "Q" "CTX").acc.spawnedDepths = [1] ∧
    (runRoot provC5 dynC5 5 cfgC5 "Q" "CTX").acc.callDepths = [0, 1, 0] ∧
    ((runRoot provC5 dynC5 5 cfgC5 "Q" "CTX").acc.merged.map
      fun s => s.llmCalls) = [1] ∧
    (accToStats 0 (runRoot provC5 dynC5 5 cfgC5 "Q" "CTX").acc).maxDepthReached
      = 0 := by
  refine ⟨?_, ?_, ?_, ?_, ?_⟩ <;> decide

/-- Claim C5 (amended): a successfully completed child's statistics are
merged into the parent's by addition (cost, llmCalls, tokens,
replErrors); a failed child's statistics are not merged, and
depth-reached is not merged at all — a run's reported `maxDepthReached`
is always its own depth.  Consequently `stats.llmCalls` of any run
equals the run's own dispatch count plus the sum of the `llmCalls` of
every successfully merged child, and likewise its `estimatedCost` is its
own dispatch cost plus the sum of the merged children's costs. -/
theorem claim_C5 :
    (∀ (prov : Nat → ProvResp) (dyn : String → DynBehavior) (gas : Nat)
        (cfg : Cfg) (depth : Nat) (q c : String) (clk : Nat),
        (runRLM prov dyn gas cfg depth q c clk).acc.llmCalls =
          (runRLM prov dyn gas cfg depth q c clk).acc.own +
            sumCalls (runRLM prov dyn gas cfg depth q c clk).acc.merged ∧
        (runRLM prov dyn gas cfg depth q c clk).acc.cost =
          (runRLM prov dyn gas cfg depth q c clk).acc.ownCost +
            sumCost (runRLM prov dyn gas cfg depth q c clk).acc.merged) ∧
    (∀ (acc : RunAcc) (snap : StatsSnap),
        (mergeChild acc snap).llmCalls = acc.llmCalls + snap.llmCalls ∧
        (mergeChild acc snap).inputTokens = acc.inputTokens + snap.inputTokens ∧
        (mergeChild acc snap).outputTokens = acc.outputTokens + snap.outputTokens ∧
        (mergeChild acc snap).replErrors = acc.replErrors + snap.replErrors ∧
        (mergeChild acc snap).cost = acc.cost + snap.cost) ∧
    (∀ (depth : Nat) (acc : RunAcc),
        (accToStats depth acc).maxDepthReached = depth) := by
  refine ⟨?_, ?_, ?_⟩
  · intro prov dyn gas cfg depth q c clk
    exact runRLM_addInv prov dyn gas cfg depth q c clk
  · intro acc snap
    exact ⟨rfl, rfl, rfl, rfl, rfl⟩
  · intro depth acc
    rfl

/-- Claim C7: with (Nat-modelled, hence non-negative) provider token
counts, estimated cost never decreases: (i) every per-call cost is
non-negative; (ii) a recursive delegation never decreases the parent's
accumulated cost (fold-in adds the child's cost, nothing on failure);
(iii) the completion loop never decreases the accumulated cost from any
starting state; (iv) every run's accumulated cost is non-negative (so
merged child costs are non-negative). -/
theorem claim_C7 :
    (∀ (model : String) (inputTokens outputTokens : Nat),
        0 ≤ calculateCost model inputTokens outputTokens) ∧
    (∀ (run : RunFn) (cfg : Cfg) (depth : Nat) (q c : String) (clk : Nat)
        (acc : RunAcc),
        (∀ (cfg' : Cfg) (d : Nat) (q' c' : String) (k : Nat),
          0 ≤ (run cfg' d q' c' k).acc.cost) →
        acc.cost ≤ (accOfCall (recCallStep run cfg depth q c clk acc)).cost) ∧
    (∀ (run : RunFn) (prov : Nat → ProvResp) (dyn : String → DynBehavior)
        (cfg : Cfg) (depth : Nat),
        (∀ (cfg' : Cfg) (d : Nat) (q' c' : String) (k : Nat),
          0 ≤ (run cfg' d q' c' k).acc.cost) →
        ∀ (r : Nat) (msgs : List Msg) (env : SandboxEnvironment) (clk : Nat)
          (acc : RunAcc),
        acc.cost ≤ (iterLoop run prov dyn cfg depth r msgs env clk acc).acc.cost) ∧
    (∀ (prov : Nat → ProvResp) (dyn : String → DynBehavior) (gas : Nat)
        (cfg : Cfg) (depth : Nat) (q c : String) (clk : Nat),
        0 ≤ (runRLM prov dyn gas cfg depth q c clk).acc.cost) := by
  refine ⟨calculateCost_nonneg, ?_, ?_, ?_⟩
  · intro run cfg depth q c clk acc hrun
    exact recCallStep_cost run cfg depth q c clk acc hrun
  · intro run prov dyn cfg depth hrun r msgs env clk acc
    exact iterLoop_cost run prov dyn cfg depth hrun r msgs env clk acc
  · intro prov dyn gas cfg depth q c clk
    exact runRLM_cost_nonneg prov dyn gas cfg depth q c clk

/-- Witness for C7 at a trivial runner (whose every result has zero
cost) and concrete loop inputs. -/
theorem claim_C7_witness :
    zeroAcc.cost ≤
      (accOfCall (recCallStep (fun _ _ _ _ k => ⟨Outcome.err RErr.noGas, k, zeroAcc⟩)
        ⟨"m", "m", 4, 3, 10, none⟩ 1 "q" "c" 0 zeroAcc)).cost ∧
    zeroAcc.cost ≤
      (iterLoop (fun _ _ _ _ k => ⟨Outcome.err RErr.noGas, k, zeroAcc⟩)
        (fun _ => ⟨"hello", 2, 3⟩) (fun _ => DynBehavior.runs [] "")
        ⟨"m", "m", 4, 3, 10, none⟩ 0 2 [] ⟨"c", "q", []⟩ 0 zeroAcc).acc.cost :=
  ⟨claim_C7.2.1 (fun _ _ _ _ k => ⟨Outcome.err RErr.noGas, k, zeroAcc⟩)
      ⟨"m", "m", 4, 3, 10, none⟩ 1 "q" "c" 0 zeroAcc
      (fun _ _ _ _ _ => le_refl 0),
   claim_C7.2.2.1 (fun _ _ _ _ k => ⟨Outcome.err RErr.noGas, k, zeroAcc⟩)
      (fun _ => ⟨"hello", 2, 3⟩) (fun _ => DynBehavior.runs [] "")
      ⟨"m", "m", 4, 3, 10, none⟩ 0
      (fun _ _ _ _ _ => le_refl 0) 2 [] ⟨"c", "q", []⟩ 0 zeroAcc⟩

/-- Claim C8: (i) a run produces a `TerminalResult` only when some
provider response satisfies `isFinal` — an exact substring check for
`FINAL(`, `FINAL_VAR(` or `FINAL_WITH_CONFIDENCE(` with no whitespace
before the parenthesis; (ii) `FINAL ("x")` with a space fails that
check, (iii) although the extraction regex itself accepts it, and (iv) a
response failing the check is handed to the sandbox as a snippet instead
(it enters the sandboxed-response list and the loop continues). -/
theorem claim_C8 :
    (∀ (prov : Nat → ProvResp) (dyn : String → DynBehavior) (gas : Nat)
        (cfg : Cfg) (depth : Nat) (q c : String) (clk : Nat) (d : Done),
        (runRLM prov dyn gas cfg depth q c clk).out = Outcome.ok d →
        ∃ n, isFinal (prov n).content = true) ∧
    isFinal "FINAL (\"x\")" = false ∧
    extractFinal "FINAL (\"x\")" = some "x" ∧
    (∀ (run : RunFn) (prov : Nat → ProvResp) (dyn : String → DynBehavior)
        (cfg : Cfg) (depth r : Nat) (msgs : List Msg) (env : SandboxEnvironment)
        (clk : Nat) (acc : RunAcc),
        budgetHit cfg (setIter cfg r acc) = none →
        isFinal (prov clk).content = false →
        (prov clk).content ∈
          (iterLoop run prov dyn cfg depth (r + 1) msgs env clk acc).acc.sandboxed) := by
  refine ⟨?_, by decide, by decide, ?_⟩
  · intro prov dyn gas cfg depth q c clk d h
    exact runRLM_ok_isFinal prov dyn gas cfg depth q c clk d h
  · intro run prov dyn cfg depth r msgs env clk acc hb hfin
    have ht : terminalGate (prov clk).content env = none := by
      simp [terminalGate, hfin]
    rw [iterLoop_step run prov dyn cfg depth r msgs env clk acc hb ht]
    cases hsb : sandboxExecP containsForbiddenPattern run dyn cfg depth
        (prov clk).content env (clk + 1)
        (markSandboxed (prov clk).content
          (dispatchAcc cfg depth (prov clk) (setIter cfg r acc))) with
    | ok out env1 clk2 acc3 =>
      dsimp only
      have h1 := sandboxExecP_sandboxed containsForbiddenPattern run dyn cfg
        depth (prov clk).content env (clk + 1)
        (markSandboxed (prov clk).content
          (dispatchAcc cfg depth (prov clk) (setIter cfg r acc)))
      rw [hsb] at h1
      simp only [accOfSb] at h1
      have hmem : (prov clk).content ∈ acc3.sandboxed := by
        rw [h1]
        simp only [markSandboxed]
        exact List.mem_append_right _ (List.mem_singleton_self _)
      exact (iterLoop_sandboxed_mono run prov dyn cfg depth r _ env1 clk2 acc3).subset hmem
    | err m clk2 acc3 =>
      dsimp only
      have h1 := sandboxExecP_sandboxed containsForbiddenPattern run dyn cfg
        depth (prov clk).content env (clk + 1)
        (markSandboxed (prov clk).content
          (dispatchAcc cfg depth (prov clk) (setIter cfg r acc)))
      rw [hsb] at h1
      simp only [accOfSb] at h1
      have hmem : (prov clk).content ∈ (bumpRepl acc3).sandboxed := by
        show (prov clk).content ∈ acc3.sandboxed
        rw [h1]
        simp only [markSandboxed]
        exact List.mem_append_right _ (List.mem_singleton_self _)
      exact (iterLoop_sandboxed_mono run prov dyn cfg depth r _ env clk2
        (bumpRepl acc3)).subset hmem

/-- Witness for C8: a run whose responses all carry `FINAL("x")`
terminates, and indeed some response satisfies `isFinal`; a response
`FINAL ("x")` (space before the parenthesis) at an open iteration is
handed to the sandbox. -/
theorem claim_C8_witness :
    (∃ n, isFinal ((fun (_ : Nat) => (⟨"FINAL(\"x\")", 1, 1⟩ : ProvResp)) n).content
      = true) ∧
    ("FINAL (\"x\")" ∈
      (iterLoop (fun _ _ _ _ k => ⟨Outcome.err RErr.noGas, k, zeroAcc⟩)
        (fun _ => ⟨"FINAL (\"x\")", 1, 1⟩) (fun _ => DynBehavior.runs [] "")
        ⟨"m", "m", 2, 3, 10, none⟩ 0 2 [] ⟨"c", "q", []⟩ 0 zeroAcc).acc.sandboxed) :=
  ⟨claim_C8.1 (fun _ => ⟨"FINAL(\"x\")", 1, 1⟩) (fun _ => DynBehavior.runs [] "")
      1 ⟨"m", "m", 2, 3, 10, none⟩ 0 "q" "c" 0 ⟨"x", none, none⟩ (by decide),
   claim_C8.2.2.2 (fun _ _ _ _ k => ⟨Outcome.err RErr.noGas, k, zeroAcc⟩)
      (fun _ => ⟨"FINAL (\"x\")", 1, 1⟩) (fun _ => DynBehavior.runs [] "")
      ⟨"m", "m", 2, 3, 10, none⟩ 0 1 [] ⟨"c", "q", []⟩ 0 zeroAcc
      (by decide) (by decide)⟩

/-- Claim C3 (code bug): the run in which a snippet defines `answer_1`
and the next response is `FINAL_VAR(answer_1)` does **not** terminate at
iteration 2 with "42" as the spec describes: `SandboxExecutor.execute`
never captures snippet bindings into the environment (only the unused
`executeWithVariables` does), so the identifier has no binding, the
marker yields no match, and the run keeps iterating — it needs a third
response and a recoverable error to finish.  The last two conjuncts show
the resolution semantics itself is fine: with no binding the lookup is
`none`; had the binding been captured, `FINAL_VAR(answer_1)` would
resolve to "42" verbatim. -/
theorem claim_C3 :
    (runRoot provC3 dynC3 5 cfgC3 "How long?" "Test").out =
      Outcome.ok ⟨"done", none, none⟩ ∧
    (runRoot provC3 dynC3 5 cfgC3 "How long?" "Test").acc.iterations = 3 ∧
    (runRoot provC3 dynC3 5 cfgC3 "How long?" "Test").acc.replErrors = 1 ∧
    extractFinalVar "FINAL_VAR(answer_1)" ⟨"Test", "How long?", []⟩ = none ∧
    extractFinalVar "FINAL_VAR(answer_1)"
      ⟨"Test", "How long?", [("answer_1", SBValue.vStr "42")]⟩ = some "42" := by
  refine ⟨?_, ?_, ?_, ?_, ?_⟩ <;> decide

/-- Counterexample to C10 as stated: the payload `\nx` (a two-character
escape sequence) is matched by the double-quote `FINAL(<string>)`
pattern, the captured literal is trimmed *before* unescaping, and the
unescaping then produces a leading newline — the returned answer starts
with whitespace. -/
theorem claim_C10_cex :
    extractFinal "FINAL(\"\\nx\")" = some "\nx" ∧
    isWs (Char.ofNat 10) = true := by
  constructor <;> decide

/-- Claim C10 (amended): the captured literal is trimmed before
unescaping, so *literal* surrounding whitespace in the payload is
removed — wrapping a payload (free of quotes, backslashes and
backticks) in any amount of surrounding spaces does not change the
extracted answer, `FINAL("  padded  ")` yields `padded`, and two
markers whose payloads differ only in surrounding literal whitespace
extract to the same answer.  (Whitespace produced by *unescaping*, such
as a leading `\n`, survives — see the counterexample.) -/
theorem claim_C10 :
    (∀ (p : List Char) (m n : Nat),
        (∀ c ∈ p, c ≠ bs ∧ c ≠ dq ∧ c ≠ sq ∧ c ≠ bt) →
        extractFinalL (wrapDQ (spaces m ++ p ++ spaces n)) =
          extractFinalL (wrapDQ p)) ∧
    extractFinal "FINAL(\"  padded  \")" = some "padded" ∧
    extractFinal "FINAL(\"  x\")" = extractFinal "FINAL(\"x  \")" := by
  refine ⟨?_, by decide, by decide⟩
  intro p m n hp
  have hpad : ∀ c ∈ spaces m ++ p ++ spaces n,
      c ≠ bs ∧ c ≠ dq ∧ c ≠ sq ∧ c ≠ bt := by
    intro c hc
    rcases List.mem_append.mp hc with h | h
    · rcases List.mem_append.mp h with h | h
      · rw [List.eq_of_mem_replicate h]
        refine ⟨by decide, by decide, by decide, by decide⟩
      · exact hp c h
    · rw [List.eq_of_mem_replicate h]
      refine ⟨by decide, by decide, by decide, by decide⟩
  rw [extractFinalL_wrapDQ_clean hpad, extractFinalL_wrapDQ_clean hp, trimL_pad]

/-- Witness for C10 at the payload `pad` padded with two leading and one
trailing space. -/
theorem claim_C10_witness :
    extractFinalL (wrapDQ (spaces 2 ++ ['p', 'a', 'd'] ++ spaces 1)) =
      extractFinalL (wrapDQ ['p', 'a', 'd']) :=
  claim_C10.1 ['p', 'a', 'd'] 2 1 (by decide)

/-- Counterexample to C4 as stated: for the string `"⏎\n` (a double
quote, a real newline, then the two characters backslash-`n`), wrapping
its escaped form in `FINAL("…")` does not round-trip.  `unescapeString`
applies its six replacements sequentially, so the backslash left by the
`\\`-pair combines with the following `n` of the *literal* `\n` text and
is turned into a newline: the extracted answer ends in a newline instead
of the original backslash-`n`. -/
theorem claim_C4_cex :
    extractFinal (String.mk (wrapDQ (escapeL [dq, Char.ofNat 10, bs, 'n']))) ≠
      some (String.mk [dq, Char.ofNat 10, bs, 'n']) ∧
    extractFinal (String.mk (wrapDQ (escapeL [dq, Char.ofNat 10, bs, 'n']))) =
      some (String.mk [dq, Char.ofNat 10, bs, Char.ofNat 10]) := by
  constructor <;> decide

/-- Claim C4 (amended): for every string without a backslash or a
backtick whose first and last characters are not whitespace, embedding
its escaped form in a `FINAL("…")` marker and running `extractFinal`
returns exactly the original string: the double-quote pattern captures
the whole escaped payload (escaped quotes do not terminate the match),
trimming leaves it unchanged, and `unescapeString` inverts the escaping.
Strings containing backslashes can be corrupted by the sequential
replacement order of `unescapeString` (see the counterexample). -/
theorem claim_C4 (s : List Char) (hbs : bs ∉ s) (hb2 : bt ∉ s)
    (hh : ∀ c, s.head? = some c → isWs c = false)
    (hl : ∀ c, s.getLast? = some c → isWs c = false) :
    extractFinal (String.mk (wrapDQ (escapeL s))) = some (String.mk s) := by
  unfold extractFinal
  rw [show (String.mk (wrapDQ (escapeL s))).toList = wrapDQ (escapeL s) from rfl]
  rw [extractFinalL_escapeL hbs hb2 hh hl]
  rfl

/-- Witness for C4 at the string `a"b⏎c` (containing a double quote and
a real newline). -/
theorem claim_C4_witness :
    bs ∉ (['a', dq, 'b', Char.ofNat 10, 'c'] : List Char) ∧
    bt ∉ (['a', dq, 'b', Char.ofNat 10, 'c'] : List Char) ∧
    extractFinal (String.mk (wrapDQ (escapeL ['a', dq, 'b', Char.ofNat 10, 'c']))) =
      some (String.mk ['a', dq, 'b', Char.ofNat 10, 'c']) :=
  ⟨by decide, by decide,
   claim_C4 ['a', dq, 'b', Char.ofNat 10, 'c'] (by decide) (by decide)
     (fun c hc => by
       have hc2 : some 'a' = some c := hc
       injection hc2 with h
       rw [← h]; decide)
     (fun c hc => by
       have hc2 : some 'c' = some c := hc
       injection hc2 with h
       rw [← h]; decide)⟩
